import Mathlib

/-!
Verification of the CalProxy calendar reconciliation engine.

The TypeScript sources are embedded shallowly: strings are Lean `String`
values manipulated through their underlying `List Char`, which models
JavaScript's code-unit string semantics on the ASCII inputs the program
handles.  `crypto.subtle.digest('SHA-256', utf8(s))` is modelled by an
abstract digest function `sha256 : String → List Nat` (byte list of the
digest); `Date.now()` by a `now : Nat` parameter; the Cloudflare KV store
by `String → Option EventState` keyed by event-key.  The constants module
(`MS_TO_IANA_TIMEZONES`, `PROPERTY_ORDER`, `DEFAULT_TIMEZONE`) is not among
the provided sources, so the timezone map, property order and default zone
are parameters of the embedded functions.
-/

namespace CalProxy

/-- Rebuild a `String` from its character list. -/
def ofChars (l : List Char) : String := ⟨l⟩

/-- Prepend a character onto the first segment of a split result
(helper for the split functions below). -/
def consHead (c : Char) : List (List Char) → List (List Char)
  | [] => [[c]]
  | h :: t => (c :: h) :: t

/-- JavaScript `s.split(sep)` for a single-character separator. -/
def splitChar (sep : Char) : List Char → List (List Char)
  | [] => [[]]
  | c :: cs => if c = sep then [] :: splitChar sep cs else consHead c (splitChar sep cs)

/-- JavaScript `s.split(/\r?\n/)`: LF splits, a CR immediately followed
by LF is consumed together with it, a lone CR is ordinary content. -/
def splitNl : List Char → List (List Char)
  | [] => [[]]
  | '\n' :: cs => [] :: splitNl cs
  | '\r' :: '\n' :: cs => [] :: splitNl cs
  | c :: cs => consHead c (splitNl cs)

/-- Split only on the two-character sequence CRLF (used to inspect the
serialized output, whose lines are claimed to be CRLF-delimited). -/
def splitCRLF : List Char → List (List Char)
  | [] => [[]]
  | '\r' :: '\n' :: cs => [] :: splitCRLF cs
  | c :: cs => consHead c (splitCRLF cs)

/-- First index of a character (JavaScript `indexOf`), `none` when absent. -/
def idxOf (c : Char) : List Char → Option Nat
  | [] => none
  | d :: ds => if d = c then some 0 else (idxOf c ds).map (· + 1)

/-- JavaScript `s.includes(t)`: substring search. -/
def hasInfixL (pat : List Char) : List Char → Bool
  | [] => decide (pat = [])
  | c :: cs => decide ((c :: cs).take pat.length = pat) || hasInfixL pat cs

/-- JavaScript `s.replace(t, r)` for a plain-string pattern: replace the
first occurrence of `pat`, or return the input unchanged when absent. -/
def replaceFirstL (pat rep : List Char) : List Char → List Char
  | [] => if pat = [] then rep else []
  | c :: cs =>
    if (c :: cs).take pat.length = pat then rep ++ (c :: cs).drop pat.length
    else c :: replaceFirstL pat rep cs

/-- ASCII whitespace used to model JavaScript `trim()`. -/
def isWsChar (c : Char) : Bool := c = ' ' || c = '\t' || c = '\n' || c = '\r'

/-- JavaScript `s.trim()` (restricted to ASCII whitespace). -/
def jsTrim (l : List Char) : List Char :=
  ((l.dropWhile isWsChar).reverse.dropWhile isWsChar).reverse

/-- JavaScript `toUpperCase` on an ASCII character. -/
def upperChar (c : Char) : Char :=
  if 'a' ≤ c ∧ c ≤ 'z' then Char.ofNat (c.toNat - 32) else c

/-- JavaScript `s.toUpperCase()` (ASCII). -/
def upperStr (s : String) : String := ofChars (s.data.map upperChar)

/-- Lexicographic comparison on character lists, the order JavaScript's
default `Array.sort` uses on (ASCII) strings. -/
def lexLe : List Char → List Char → Bool
  | [], _ => true
  | _ :: _, [] => false
  | a :: as, b :: bs => if a < b then true else if a = b then lexLe as bs else false

/-- String comparison wrapper for `lexLe`. -/
def strLeB (a b : String) : Bool := lexLe a.data b.data

/-- Insert into a `le`-sorted list, before the first element not below the
new one (stable insertion, matching JavaScript's stable `Array.sort`). -/
def insertLe {α : Type} (le : α → α → Bool) (x : α) : List α → List α
  | [] => [x]
  | y :: ys => if le x y then x :: y :: ys else y :: insertLe le x ys

/-- Stable insertion sort, the model of JavaScript `Array.sort(cmp)`. -/
def sortBy {α : Type} (le : α → α → Bool) : List α → List α
  | [] => []
  | x :: xs => insertLe le x (sortBy le xs)

/-- JavaScript `array.sort()` on strings. -/
def sortStrings (l : List String) : List String := sortBy strLeB l

/-- Hex digit characters, lowercase, as produced by `Number.toString(16)`. -/
def hexChars : List Char := "0123456789abcdef".data

/-- The hex digit for a nibble (`n < 16`). -/
def hexDigit (n : Nat) : Char := hexChars.getD n '0'

/-- JavaScript `b.toString(16).padStart(2, '0')` for a byte `b < 256`. -/
def byteToHex (b : Nat) : List Char := [hexDigit (b / 16), hexDigit (b % 16)]

/-- Render a byte list as lowercase hexadecimal. -/
def bytesToHex (bs : List Nat) : String := ofChars (bs.map byteToHex).flatten

/-- JavaScript truthiness of a nullable string: `null` and `''` are falsy. -/
def isTruthy : Option String → Bool
  | none => false
  | some s => decide (s ≠ "")

/-- JavaScript `a || b` where `a` is a nullable string and `b` a string. -/
def orDefault (a : Option String) (b : String) : String :=
  match a with
  | some s => if s = "" then b else s
  | none => b

/-! ## Data model (`src/lib/types.ts`) -/

/-- A content line's parsed form: `(name, parameter map, value)`. -/
structure IcsProperty where
  name : String
  params : List (String × String)
  value : String
deriving DecidableEq, Repr

/-- A parsed VEVENT block. -/
structure IcsEvent where
  uid : String
  properties : List IcsProperty
  rawLines : List String
deriving DecidableEq, Repr

/-- The four regions of a parsed calendar. -/
structure ParsedCalendar where
  headerLines : List String
  timezoneBlocks : List String
  events : List IcsEvent
  footerLines : List String
deriving DecidableEq, Repr

/-- An event after normalization. -/
structure NormalizedEvent where
  stableUid : String
  sequence : Nat
  isException : Bool
  recurrenceId : Option String
  lines : List String
deriving DecidableEq, Repr

/-- A normalized calendar: the parsed regions plus the normalized events. -/
structure NormalizedCalendar where
  headerLines : List String
  timezoneBlocks : List String
  events : List IcsEvent
  footerLines : List String
  normalizedEvents : List NormalizedEvent
deriving DecidableEq, Repr

/-- Per event-key persisted state. -/
structure EventState where
  sequence : Nat
  contentHash : String
  lastSeen : Nat
deriving DecidableEq, Repr

/-- The persisted snapshot of event-keys from the previous successful run. -/
structure CalendarSnapshot where
  eventKeys : List String
  generatedAt : Nat
deriving DecidableEq, Repr

/-- JavaScript `Map.set` on an insertion-ordered association list:
overwrite in place when the key exists, append otherwise. -/
def mapSet {α : Type} (m : List (String × α)) (k : String) (v : α) : List (String × α) :=
  match m with
  | [] => [(k, v)]
  | (k0, v0) :: rest => if k0 = k then (k, v) :: rest else (k0, v0) :: mapSet rest k v

/-- JavaScript `Map.get`, `none` when the key is absent. -/
def mapGet {α : Type} (m : List (String × α)) (k : String) : Option α :=
  (m.find? (fun p => p.1 = k)).map (·.2)

/-! ## Parser (`src/lib/parser.ts`) -/

/-- A line begins with a single space or tab (a folded continuation). -/
def isContinuation (l : List Char) : Bool :=
  match l with
  | c :: _ => c = ' ' || c = '\t'
  | [] => false

/-- One step of the unfolding loop: a continuation line is appended to the
previous unfolded line with its leading byte removed; otherwise the line is
pushed (this includes a continuation arriving while the accumulator is
still empty). -/
def unfoldStep (acc : List (List Char)) (l : List Char) : List (List Char) :=
  if isContinuation l ∧ acc ≠ [] then acc.dropLast ++ [acc.getLastD [] ++ l.tail]
  else acc ++ [l]

/-- `unfoldLines` from `src/lib/parser.ts`: split on CRLF or LF, then merge
continuation lines into their predecessor. -/
def unfoldLines (ics : String) : List String :=
  ((splitNl ics.data).foldl unfoldStep []).map ofChars

/-- `parseProperty` from `src/lib/parser.ts`. -/
def parseProperty (line : String) : Option IcsProperty :=
  match idxOf ':' line.data with
  | none => none
  | some colonIdx =>
    let beforeColon := line.data.take colonIdx
    let value := line.data.drop (colonIdx + 1)
    let params :=
      match idxOf ';' beforeColon with
      | none => ([] : List (String × String))
      | some semiIdx =>
        let paramStr := beforeColon.drop (semiIdx + 1)
        (splitChar ';' paramStr).foldl
          (fun m part =>
            match idxOf '=' part with
            | some eqIdx =>
              mapSet m (upperStr (ofChars (part.take eqIdx))) (ofChars (part.drop (eqIdx + 1)))
            | none => m)
          []
    let name :=
      match idxOf ';' beforeColon with
      | none => beforeColon
      | some semiIdx => beforeColon.take semiIdx
    some ⟨upperStr (ofChars name), params, ofChars value⟩

/-- The block-extraction state machine's state (`parseIcs` locals). -/
structure ParseState where
  headerLines : List String
  timezoneBlocks : List String
  events : List IcsEvent
  footerLines : List String
  inTimezone : Bool
  inEvent : Bool
  currentTimezoneLines : List String
  currentEventLines : List String
  currentEventProps : List IcsProperty
  currentUid : String
  headerDone : Bool
deriving DecidableEq, Repr

/-- The initial parser state. -/
def initParseState : ParseState := ⟨[], [], [], [], false, false, [], [], [], "", false⟩

/-- Join lines with CRLF (JavaScript `array.join('\r\n')`). -/
def joinCRLF (ls : List String) : String := String.intercalate "\r\n" ls

/-- One iteration of the `parseIcs` loop. -/
def parseStep (st : ParseState) (line : String) : ParseState :=
  if line = "BEGIN:VTIMEZONE" then
    { st with inTimezone := true, currentTimezoneLines := [line] }
  else if st.inTimezone then
    let st1 := { st with currentTimezoneLines := st.currentTimezoneLines ++ [line] }
    if line = "END:VTIMEZONE" then
      { st1 with timezoneBlocks := st1.timezoneBlocks ++ [joinCRLF st1.currentTimezoneLines],
                 inTimezone := false }
    else st1
  else if line = "BEGIN:VEVENT" then
    { st with headerDone := true, inEvent := true, currentEventLines := [line],
              currentEventProps := [], currentUid := "" }
  else if st.inEvent then
    let st1 := { st with currentEventLines := st.currentEventLines ++ [line] }
    let st2 :=
      match parseProperty line with
      | some p =>
        { st1 with currentEventProps := st1.currentEventProps ++ [p],
                   currentUid := if p.name = "UID" then p.value else st1.currentUid }
      | none => st1
    if line = "END:VEVENT" then
      { st2 with events := st2.events ++ [⟨st2.currentUid, st2.currentEventProps,
                                          st2.currentEventLines⟩],
                 inEvent := false }
    else st2
  else if ¬ st.headerDone then
    { st with headerLines := st.headerLines ++ [line] }
  else if line = "END:VCALENDAR" then
    { st with footerLines := st.footerLines ++ [line] }
  else st

/-- Run the `parseIcs` loop over a list of (already unfolded) lines. -/
def parseIcsLines (lines : List String) : ParseState :=
  lines.foldl parseStep initParseState

/-- Project the loop state onto the returned `ParsedCalendar`. -/
def resultOf (st : ParseState) : ParsedCalendar :=
  ⟨st.headerLines, st.timezoneBlocks, st.events, st.footerLines⟩

/-- `parseIcs` from `src/lib/parser.ts`. -/
def parseIcs (ics : String) : ParsedCalendar :=
  resultOf (parseIcsLines (unfoldLines ics))

/-- `getProperty` from `src/lib/parser.ts`: first property with the name. -/
def getProperty (event : IcsEvent) (name : String) : Option IcsProperty :=
  event.properties.find? (fun p => p.name = name)

/-! ## Normalizer (`src/lib/normalize.ts`)

The Windows-to-IANA timezone table lives in the constants module, which is
not among the provided sources; the functions below take it as a parameter
`tzmap : String → Option String` (`tzmap t = none` models a key absent from
the record). -/

/-- A timezone map parameter type: `MS_TO_IANA_TIMEZONES` lookups. -/
abbrev TzMap := String → Option String

/-- `normalizeTimezone`: `MS_TO_IANA_TIMEZONES[tzid] || tzid` (a mapped
value that is the empty string would be falsy and fall back to `tzid`). -/
def normalizeTimezone (tzmap : TzMap) (tzid : String) : String :=
  match tzmap tzid with
  | some t => if t = "" then tzid else t
  | none => tzid

/-- Result of `parseDateTimeValue`. -/
structure DateTimeParts where
  date : String
  time : String
  isUtc : Bool
  isDateOnly : Bool
deriving DecidableEq, Repr

/-- `parseDateTimeValue` from `src/lib/normalize.ts`: strip a trailing `Z`,
then split on the first `T`; a value without `T` is date-only (and reported
as non-UTC even when it ended in `Z`). -/
def parseDateTimeValue (value : String) : DateTimeParts :=
  let isUtc := value.data.getLast? = some 'Z'
  let cleanValue := if isUtc then value.data.dropLast else value.data
  if cleanValue.contains 'T' then
    let parts := splitChar 'T' cleanValue
    ⟨ofChars (parts.headD []), ofChars ((parts.drop 1).headD []), isUtc, false⟩
  else
    ⟨ofChars cleanValue, "", false, true⟩

/-- Look up a parameter on a property (JavaScript `prop.params.get`). -/
def getParam (prop : IcsProperty) (key : String) : Option String :=
  mapGet prop.params key

/-- `normalizeDateTimeProp` from `src/lib/normalize.ts`. -/
def normalizeDateTimeProp (tzmap : TzMap) (prop : IcsProperty) (defaultTz : String) : String :=
  let p := parseDateTimeValue prop.value
  if p.isDateOnly then
    prop.name ++ ";VALUE=DATE:" ++ p.date
  else if p.isUtc then
    prop.name ++ ":" ++ p.date ++ "T" ++ p.time ++ "Z"
  else
    let tzid := normalizeTimezone tzmap (orDefault (getParam prop "TZID") defaultTz)
    prop.name ++ ";TZID=" ++ tzid ++ ":" ++ p.date ++ "T" ++ p.time

/-- Reassemble one EXDATE/RDATE entry after classification. -/
def normalizeDateEntry (val : List Char) : String :=
  let p := parseDateTimeValue (ofChars (jsTrim val))
  if p.isDateOnly then p.date
  else if p.isUtc then p.date ++ "T" ++ p.time ++ "Z"
  else p.date ++ "T" ++ p.time

/-- The normalized, sorted entry list of an EXDATE/RDATE property. -/
def exdateEntries (prop : IcsProperty) : List String :=
  sortStrings ((splitChar ',' prop.value.data).map normalizeDateEntry)

/-- `normalizeExdateRdate` from `src/lib/normalize.ts`.  Note the source
decides `VALUE=DATE` from the first sorted entry alone
(`normalized[0] && !normalized[0].includes('T')`). -/
def normalizeExdateRdate (tzmap : TzMap) (prop : IcsProperty) : String :=
  let tzid : Option String :=
    match getParam prop "TZID" with
    | some t => if t = "" then some "" else some (normalizeTimezone tzmap t)
    | none => none
  let sorted := exdateEntries prop
  let isDateOnlyResult : Bool :=
    match sorted with
    | h :: _ => decide (h ≠ "") && ! h.data.contains 'T'
    | [] => false
  if isDateOnlyResult then
    prop.name ++ ";VALUE=DATE:" ++ String.intercalate "," sorted
  else if isTruthy tzid then
    prop.name ++ ";TZID=" ++ (tzid.getD "") ++ ":" ++ String.intercalate "," sorted
  else
    prop.name ++ ":" ++ String.intercalate "," sorted

/-- Maximal `-?\d+` prefix of a character list (the regex capture in
`/BYSETPOS=(-?\d+)/`), `none` when no digit follows. -/
def numPrefix (l : List Char) : Option (List Char) :=
  match l with
  | '-' :: rest =>
    let ds := rest.takeWhile Char.isDigit
    if ds = [] then none else some ('-' :: ds)
  | _ =>
    let ds := l.takeWhile Char.isDigit
    if ds = [] then none else some ds

/-- First match of `/BYSETPOS=(-?\d+)/`, returning the capture. -/
def bysetposCapture : List Char → Option String
  | [] => none
  | c :: cs =>
    if (c :: cs).take 9 = "BYSETPOS=".data then
      match numPrefix ((c :: cs).drop 9) with
      | some num => some (ofChars num)
      | none => bysetposCapture cs
    else bysetposCapture cs

/-- Does `BYDAY=` followed by two uppercase letters start here? -/
def bydayAt (l : List Char) : Bool :=
  decide (l.take 6 = "BYDAY=".data) &&
    match l.drop 6 with
    | a :: b :: _ => a.isUpper && b.isUpper
    | _ => false

/-- First match of `/BYDAY=([A-Z]{2})/`, returning the capture. -/
def bydayCapture : List Char → Option String
  | [] => none
  | c :: cs =>
    if bydayAt (c :: cs) then some (ofChars (((c :: cs).drop 6).take 2))
    else bydayCapture cs

/-- Does `/BYDAY=[^;]*,/` match: some `BYDAY=` occurrence is followed by a
comma before the next semicolon? -/
def hasBydayComma : List Char → Bool
  | [] => false
  | c :: cs =>
    (decide ((c :: cs).take 6 = "BYDAY=".data) &&
      (((c :: cs).drop 6).takeWhile (fun d => d ≠ ';')).contains ',') ||
    hasBydayComma cs

/-- Remove the first match of `/;?BYSETPOS=-?\d+/` (JavaScript
`value.replace(/;?BYSETPOS=-?\d+/, '')`). -/
def removeBysetposFirst : List Char → List Char
  | [] => []
  | c :: cs =>
    if c = ';' ∧ cs.take 9 = "BYSETPOS=".data ∧ (numPrefix (cs.drop 9)).isSome then
      match numPrefix (cs.drop 9) with
      | some num => cs.drop (9 + num.length)
      | none => []
    else if (c :: cs).take 9 = "BYSETPOS=".data ∧ (numPrefix ((c :: cs).drop 9)).isSome then
      match numPrefix ((c :: cs).drop 9) with
      | some num => (c :: cs).drop (9 + num.length)
      | none => []
    else c :: removeBysetposFirst cs

/-- Replace the first match of `/BYDAY=[A-Z]{2}/` by `BYDAY=` ++ `rep`. -/
def replaceBydayFirst (rep : List Char) : List Char → List Char
  | [] => []
  | c :: cs =>
    if bydayAt (c :: cs) then "BYDAY=".data ++ rep ++ (c :: cs).drop 8
    else c :: replaceBydayFirst rep cs

/-- `normalizeRrule` from `src/lib/normalize.ts`: rewrite
`BYDAY=wd;BYSETPOS=n` to `BYDAY=nwd` when both regexes match and no BYDAY
run contains a comma; otherwise pass the value through verbatim. -/
def normalizeRrule (prop : IcsProperty) : String :=
  let v := prop.value.data
  match bysetposCapture v, bydayCapture v with
  | some pos, some day =>
    if hasBydayComma v then "RRULE:" ++ prop.value
    else "RRULE:" ++ ofChars (replaceBydayFirst (pos.data ++ day.data) (removeBysetposFirst v))
  | _, _ => "RRULE:" ++ prop.value

/-- `normalizeRecurrenceId` from `src/lib/normalize.ts`. -/
def normalizeRecurrenceId (tzmap : TzMap) (prop : IcsProperty) (defaultTz : String) : String :=
  let p := parseDateTimeValue prop.value
  if p.isDateOnly then
    "RECURRENCE-ID;VALUE=DATE:" ++ p.date
  else if p.isUtc then
    "RECURRENCE-ID:" ++ p.date ++ "T" ++ p.time ++ "Z"
  else
    let tzid := normalizeTimezone tzmap (orDefault (getParam prop "TZID") defaultTz)
    "RECURRENCE-ID;TZID=" ++ tzid ++ ":" ++ p.date ++ "T" ++ p.time

/-- `reconstructProperty`: `NAME(;PARAM=VALUE)*:VALUE` with parameters
sorted by name. -/
def reconstructProperty (prop : IcsProperty) : String :=
  let sortedParams := sortBy (fun a b => strLeB a.1 b.1) prop.params
  prop.name ++
    String.join (sortedParams.map (fun kv => ";" ++ kv.1 ++ "=" ++ kv.2)) ++
    ":" ++ prop.value

/-- `normalizeProperty`: dispatch on the property name. -/
def normalizeProperty (tzmap : TzMap) (prop : IcsProperty) (defaultTz : String) : String :=
  if prop.name = "DTSTART" ∨ prop.name = "DTEND" then
    normalizeDateTimeProp tzmap prop defaultTz
  else if prop.name = "RECURRENCE-ID" then
    normalizeRecurrenceId tzmap prop defaultTz
  else if prop.name = "RRULE" then
    normalizeRrule prop
  else if prop.name = "EXDATE" ∨ prop.name = "RDATE" then
    normalizeExdateRdate tzmap prop
  else if prop.name = "DTSTAMP" ∨ prop.name = "CREATED" ∨ prop.name = "LAST-MODIFIED" then
    normalizeDateTimeProp tzmap prop "UTC"
  else
    reconstructProperty prop

/-- Group the event's properties by name, in first-occurrence order
(the `propsByName` JavaScript `Map`). -/
def propsByName (props : List IcsProperty) : List (String × List IcsProperty) :=
  props.foldl
    (fun m p =>
      match mapGet m p.name with
      | some ps => mapSet m p.name (ps ++ [p])
      | none => mapSet m p.name [p])
    []

/-- `normalizeEventLines` from `src/lib/normalize.ts`.  `porder` is the
`PROPERTY_ORDER` constant (not among the provided sources). -/
def normalizeEventLines (tzmap : TzMap) (porder : List String) (event : IcsEvent)
    (stableUid : String) (sequence : Nat) (tz : String) : List String :=
  let groups := propsByName event.properties
  let firstPass :=
    porder.foldl
      (fun (acc : List String × List String) propName =>
        match mapGet groups propName with
        | none => acc
        | some props =>
          (acc.1 ++ [propName],
           acc.2 ++ (props.map (fun p => normalizeProperty tzmap p tz)).filter (fun l => l ≠ "")))
      (["UID", "SEQUENCE"], [])
  let emitted := firstPass.1
  let secondPass :=
    groups.foldl
      (fun ls g =>
        if emitted.contains g.1 ∨ g.1 = "BEGIN" ∨ g.1 = "END" then ls
        else ls ++ g.2.map reconstructProperty)
      []
  ["BEGIN:VEVENT", "UID:" ++ stableUid ++ "@calproxy", "SEQUENCE:" ++ toString sequence] ++
    firstPass.2 ++ secondPass ++ ["END:VEVENT"]

/-! ## Identity derivation (`src/lib/normalize.ts`)

`crypto.subtle.digest('SHA-256', utf8(s))` is the abstract parameter
`sha256 : String → List Nat` returning the digest's byte list. -/

/-- The digest function parameter type. -/
abbrev Sha256 := String → List Nat

/-- The `|`-joined component string hashed by `computeStableUid`. -/
def stableUidComponents (event : IcsEvent) : String :=
  String.intercalate "|"
    [orDefault ((getProperty event "DTSTART").map IcsProperty.value) "",
     orDefault ((getProperty event "SUMMARY").map IcsProperty.value) "",
     orDefault ((getProperty event "ORGANIZER").map IcsProperty.value) "",
     event.uid]

/-- `computeStableUid`: first 16 digest bytes in lowercase hex. -/
def computeStableUid (sha256 : Sha256) (event : IcsEvent) : String :=
  bytesToHex ((sha256 (stableUidComponents event)).take 16)

/-- The volatile property names filtered out of the content hash. -/
def volatileNames : List String := ["DTSTAMP", "LAST-MODIFIED", "SEQUENCE"]

/-- The non-volatile properties of an event, in original order. -/
def stableProps (event : IcsEvent) : List IcsProperty :=
  event.properties.filter (fun p => ¬ volatileNames.contains p.name)

/-- `computeContentHash`: digest of the sorted `NAME:VALUE` lines of the
non-volatile properties, full hex. -/
def computeContentHash (sha256 : Sha256) (event : IcsEvent) : String :=
  bytesToHex (sha256 (String.intercalate "\n"
    (sortStrings ((stableProps event).map (fun p => p.name ++ ":" ++ p.value)))))

/-- `createCancelledEventLines` from `src/lib/normalize.ts`.  `nowStamp`
stands for the `YYYYMMDDTHHMMSSZ` rendering of the current wall-clock time
(the `Date` arithmetic is outside the embedding). -/
def createCancelledEventLines (nowStamp : String) (stableUid : String) (sequence : Nat)
    (recurrenceId : Option String) : List String :=
  ["BEGIN:VEVENT",
   "UID:" ++ stableUid ++ "@calproxy",
   "SEQUENCE:" ++ toString sequence,
   "DTSTAMP:" ++ nowStamp,
   "STATUS:CANCELLED"] ++
  (if isTruthy recurrenceId then
    ["RECURRENCE-ID:" ++ recurrenceId.getD "", "DTSTART:" ++ recurrenceId.getD ""]
   else
    ["DTSTART:" ++ nowStamp]) ++
  ["SUMMARY:Cancelled Event", "END:VEVENT"]

/-- Comparator for master events (`localeCompare` on stable UIDs,
modelled as code-unit order on the hex strings involved). -/
def masterLe (a b : NormalizedEvent) : Bool := strLeB a.stableUid b.stableUid

/-- Comparator for exception events: stable UID, then recurrence id. -/
def exceptionLe (a b : NormalizedEvent) : Bool :=
  if a.stableUid = b.stableUid then
    strLeB (a.recurrenceId.getD "") (b.recurrenceId.getD "")
  else strLeB a.stableUid b.stableUid

/-- `sortEvents` from `src/lib/normalize.ts`: masters first, each class
sorted by its comparator. -/
def sortEvents (events : List NormalizedEvent) : List NormalizedEvent :=
  let masters := events.filter (fun e => ¬ e.isException)
  let exceptions := events.filter (fun e => e.isException)
  sortBy masterLe masters ++ sortBy exceptionLe exceptions

/-! ## Serializer (`src/lib/serialize.ts`) -/

/-- The continuation chunks pushed by `foldLine`'s while loop: repeated
74-character slices of the remainder, each prefixed with one space. -/
def foldRest : List Char → List String
  | [] => []
  | c :: cs => ofChars (' ' :: (c :: cs).take 74) :: foldRest ((c :: cs).drop 74)
termination_by l => l.length
decreasing_by simp; omega

/-- `foldLine` from `src/lib/serialize.ts`: lines of at most 75 characters
stand; longer lines keep their first 75 characters and continue in
space-prefixed chunks joined with CRLF. -/
def foldLine (line : String) : String :=
  if line.length ≤ 75 then line
  else joinCRLF (ofChars (line.data.take 75) :: foldRest (line.data.drop 75))

/-- `generateVtimezone` from `src/lib/serialize.ts`.  The template
literals in the source contain plain LF line breaks, reproduced here. -/
def generateVtimezone (tzid : String) : String :=
  if tzid = "America/Indiana/Indianapolis" ∨ tzid = "America/New_York" then
    "BEGIN:VTIMEZONE\nTZID:" ++ tzid ++
    "\nBEGIN:STANDARD\nDTSTART:19701101T020000\nRRULE:FREQ=YEARLY;BYMONTH=11;BYDAY=1SU\n" ++
    "TZOFFSETFROM:-0400\nTZOFFSETTO:-0500\nTZNAME:EST\nEND:STANDARD\n" ++
    "BEGIN:DAYLIGHT\nDTSTART:19700308T020000\nRRULE:FREQ=YEARLY;BYMONTH=3;BYDAY=2SU\n" ++
    "TZOFFSETFROM:-0500\nTZOFFSETTO:-0400\nTZNAME:EDT\nEND:DAYLIGHT\nEND:VTIMEZONE"
  else if tzid = "America/Chicago" then
    "BEGIN:VTIMEZONE\nTZID:America/Chicago" ++
    "\nBEGIN:STANDARD\nDTSTART:19701101T020000\nRRULE:FREQ=YEARLY;BYMONTH=11;BYDAY=1SU\n" ++
    "TZOFFSETFROM:-0500\nTZOFFSETTO:-0600\nTZNAME:CST\nEND:STANDARD\n" ++
    "BEGIN:DAYLIGHT\nDTSTART:19700308T020000\nRRULE:FREQ=YEARLY;BYMONTH=3;BYDAY=2SU\n" ++
    "TZOFFSETFROM:-0600\nTZOFFSETTO:-0500\nTZNAME:CDT\nEND:DAYLIGHT\nEND:VTIMEZONE"
  else if tzid = "America/Los_Angeles" then
    "BEGIN:VTIMEZONE\nTZID:America/Los_Angeles" ++
    "\nBEGIN:STANDARD\nDTSTART:19701101T020000\nRRULE:FREQ=YEARLY;BYMONTH=11;BYDAY=1SU\n" ++
    "TZOFFSETFROM:-0700\nTZOFFSETTO:-0800\nTZNAME:PST\nEND:STANDARD\n" ++
    "BEGIN:DAYLIGHT\nDTSTART:19700308T020000\nRRULE:FREQ=YEARLY;BYMONTH=3;BYDAY=2SU\n" ++
    "TZOFFSETFROM:-0800\nTZOFFSETTO:-0700\nTZNAME:PDT\nEND:DAYLIGHT\nEND:VTIMEZONE"
  else
    "BEGIN:VTIMEZONE\nTZID:" ++ tzid ++
    "\nBEGIN:STANDARD\nDTSTART:19700101T000000\nTZOFFSETFROM:+0000\nTZOFFSETTO:+0000\n" ++
    "TZNAME:" ++ tzid ++ "\nEND:STANDARD\nEND:VTIMEZONE"

/-- First capture of `/TZID:([^\r\n]+)/`: the maximal nonempty run of
non-CR/LF characters after some `TZID:` occurrence. -/
def tzidCapture : List Char → Option (List Char)
  | [] => none
  | c :: cs =>
    if (c :: cs).take 5 = "TZID:".data then
      let run := ((c :: cs).drop 5).takeWhile (fun d => d ≠ '\r' && d ≠ '\n')
      if run = [] then tzidCapture cs else some run
    else tzidCapture cs

/-- The per-block TZID rewrite inside `serializeCalendar`: when the block
matches `/TZID:(...)/` and the captured name maps to a different IANA name,
the first occurrence of the captured string is replaced. -/
def rewriteTzBlock (tzmap : TzMap) (block : String) : String :=
  match tzidCapture block.data with
  | some t =>
    let t' := normalizeTimezone tzmap (ofChars t)
    if t' ≠ ofChars t then ofChars (replaceFirstL t t'.data block.data) else block
  | none => block

/-- The `output` array built by `serializeCalendar` before joining. -/
def serializeElements (tzmap : TzMap) (cal : NormalizedCalendar) (tz : String) : List String :=
  cal.headerLines ++
  (if ¬ cal.timezoneBlocks.any (fun b => hasInfixL ("TZID:" ++ tz).data b.data) then
    [generateVtimezone tz]
   else []) ++
  cal.timezoneBlocks.map (rewriteTzBlock tzmap) ++
  (sortEvents cal.normalizedEvents).flatMap (fun e => e.lines.map foldLine) ++
  cal.footerLines

/-- `serializeCalendar` from `src/lib/serialize.ts`: the output list joined
with CRLF.  `tz` is the already-resolved default timezone
(`defaultTz || DEFAULT_TIMEZONE` in the source). -/
def serializeCalendar (tzmap : TzMap) (cal : NormalizedCalendar) (tz : String) : String :=
  joinCRLF (serializeElements tzmap cal tz)

/-! ## Reconciler (`src/index.ts`, `normalizeCalendar`)

The KV namespace is modelled as a map from event-key to `EventState`; reads
and writes are threaded sequentially in feed order, matching the spec's
ordering model.  `RunCtx` carries the ambient parameters of one run. -/

/-- The event-key to state map standing for the KV namespace. -/
abbrev KvMap := String → Option EventState

/-- Ambient parameters of one normalization run. -/
structure RunCtx where
  sha256 : Sha256
  tzmap : TzMap
  propertyOrder : List String
  defaultTz : String
  now : Nat
  nowStamp : String

/-- The event-key of a parsed event: the stable UID, suffixed with
`#<recurrence-id>` for exceptions. -/
def eventKeyOf (sha256 : Sha256) (event : IcsEvent) : String :=
  let stableUid := computeStableUid sha256 event
  match getProperty event "RECURRENCE-ID" with
  | some p => stableUid ++ "#" ++ p.value
  | none => stableUid

/-- What one iteration of the per-event loop produces. -/
structure StepOut where
  ne : NormalizedEvent
  key : String
  state : KvMap

/-- The body of the per-event loop of `normalizeCalendar`: derive identity,
pick the sequence from the prior state, rewrite the state record, and
normalize the event's lines. -/
def processEvent (ctx : RunCtx) (st : KvMap) (event : IcsEvent) : StepOut :=
  let stableUid := computeStableUid ctx.sha256 event
  let contentHash := computeContentHash ctx.sha256 event
  let recurrenceIdProp := getProperty event "RECURRENCE-ID"
  let isException := recurrenceIdProp.isSome
  let eventKey := eventKeyOf ctx.sha256 event
  let sequence :=
    match st eventKey with
    | some prev => if prev.contentHash ≠ contentHash then prev.sequence + 1 else prev.sequence
    | none => 0
  let st1 : KvMap := fun x => if x = eventKey then some ⟨sequence, contentHash, ctx.now⟩ else st x
  let lines := normalizeEventLines ctx.tzmap ctx.propertyOrder event stableUid sequence ctx.defaultTz
  ⟨⟨stableUid, sequence, isException,
    match recurrenceIdProp.map IcsProperty.value with
    | some v => if v = "" then none else some v
    | none => none,
    lines⟩, eventKey, st1⟩

/-- Accumulated result of the per-event loop. -/
structure Phase1Out where
  events : List NormalizedEvent
  currentKeys : List String
  state : KvMap

/-- The per-event loop of `normalizeCalendar`, threading the state map. -/
def phase1 (ctx : RunCtx) (st : KvMap) : List IcsEvent → Phase1Out
  | [] => ⟨[], [], st⟩
  | e :: es =>
    let step := processEvent ctx st e
    let rest := phase1 ctx step.state es
    ⟨step.ne :: rest.events, step.key :: rest.currentKeys, rest.state⟩

/-- `createCancelledEventFromState` from `src/index.ts`: read the prior
state for a disappeared key, advance its sequence, mark it `CANCELLED`, and
synthesize the cancellation VEVENT. -/
def createCancelledEventFromState (ctx : RunCtx) (st : KvMap) (eventKey : String) :
    Option NormalizedEvent × KvMap :=
  match st eventKey with
  | none => (none, st)
  | some prevState =>
    let parts := splitChar '#' eventKey.data
    let stableUid := if eventKey.data.contains '#' then ofChars (parts.headD []) else eventKey
    let recurrenceId : Option String :=
      if eventKey.data.contains '#' then some (ofChars ((parts.drop 1).headD [])) else none
    let newSequence := prevState.sequence + 1
    let st1 : KvMap :=
      fun x => if x = eventKey then some ⟨newSequence, "CANCELLED", ctx.now⟩ else st x
    let lines := createCancelledEventLines ctx.nowStamp stableUid newSequence recurrenceId
    (some ⟨stableUid, newSequence, isTruthy recurrenceId, recurrenceId, lines⟩, st1)

/-- The cancellation loop of `normalizeCalendar`, run over the snapshot
keys missing from the current parse, pairing each synthesized event with
the key it was synthesized for. -/
def cancelPhase (ctx : RunCtx) (st : KvMap) :
    List String → List (String × NormalizedEvent) × KvMap
  | [] => ([], st)
  | k :: ks =>
    match createCancelledEventFromState ctx st k with
    | (some ne, st1) =>
      let rest := cancelPhase ctx st1 ks
      ((k, ne) :: rest.1, rest.2)
    | (none, st1) => cancelPhase ctx st1 ks

/-- The full result of one `normalizeCalendar` run. -/
structure ReconcileResult where
  normalizedEvents : List NormalizedEvent
  cancellations : List (String × NormalizedEvent)
  snapshotKeys : List String
  finalState : KvMap

/-- `normalizeCalendar` from `src/index.ts`: process each parsed event,
then synthesize cancellations for snapshot keys absent from the current
parse, and record the current keys as the new snapshot. -/
def normalizeCalendar (ctx : RunCtx) (st : KvMap) (prevSnapshot : Option CalendarSnapshot)
    (parsed : ParsedCalendar) : ReconcileResult :=
  let ph := phase1 ctx st parsed.events
  let cancels :=
    match prevSnapshot with
    | some snap =>
      cancelPhase ctx ph.state
        (snap.eventKeys.filter (fun k => ! ph.currentKeys.contains k))
    | none => ([], ph.state)
  ⟨ph.events ++ cancels.1.map Prod.snd, cancels.1, ph.currentKeys, cancels.2⟩

/-! ## Specification-side definitions

These follow the spec's wording (with the amendments the theorems record)
and are compared against the embedded source functions. -/

/-- Spec side, line unfolding: group each base line with the maximal run of
continuation lines that follows it; a group's unfolded line is the base
followed by the continuations' contents, each stripped of its leading
whitespace byte.  Stated as a right recursion, against the source's left
fold. -/
def specGroups : List (List Char) → List (List Char × List Char)
  | [] => []
  | l :: ls =>
    match specGroups ls with
    | [] => [(l, [])]
    | (g, m) :: gs =>
      if isContinuation g then (l, g.tail ++ m) :: gs
      else (l, []) :: (g, m) :: gs

/-- The unfolded line of one group. -/
def mergeGroup (g : List Char × List Char) : String := ofChars (g.1 ++ g.2)

/-- Spec side, datetime classification: the value with a trailing `Z`
stripped. -/
def stripZ (v : List Char) : List Char :=
  if v.getLast? = some 'Z' then v.dropLast else v

/-- Spec side: the `<date>` part of a datetime value (before the first
`T`, after stripping a trailing `Z`). -/
def dateOf (v : String) : String := ofChars ((splitChar 'T' (stripZ v.data)).headD [])

/-- Spec side: the `<time>` part of a datetime value (between the first
and second `T`, after stripping a trailing `Z`). -/
def timeOf (v : String) : String :=
  ofChars (((splitChar 'T' (stripZ v.data)).drop 1).headD [])

/-- Spec side, line folding: successive 74-character chunks of a line's
remainder. -/
def chunks74 : List Char → List (List Char)
  | [] => []
  | c :: cs => (c :: cs).take 74 :: chunks74 ((c :: cs).drop 74)
termination_by l => l.length
decreasing_by simp; omega

/-- Spec side `foldLine`: the first 75 characters stand, each subsequent
chunk of at most 74 characters is prefixed with a single space and preceded
by CRLF. -/
def specFoldLine (line : String) : String :=
  if line.length ≤ 75 then line
  else
    ofChars (line.data.take 75) ++
      String.join ((chunks74 (line.data.drop 75)).map (fun c => "\r\n " ++ ofChars c))

/-- Spec side, stable UID: lowercase hex of the first 16 digest bytes of
the `|`-separated concatenation of the DTSTART, SUMMARY and ORGANIZER
values (empty when absent) and the upstream UID. -/
def specStableUid (sha256 : Sha256) (event : IcsEvent) : String :=
  bytesToHex ((sha256
    (orDefault ((getProperty event "DTSTART").map IcsProperty.value) "" ++ "|" ++
     orDefault ((getProperty event "SUMMARY").map IcsProperty.value) "" ++ "|" ++
     orDefault ((getProperty event "ORGANIZER").map IcsProperty.value) "" ++ "|" ++
     event.uid)).take 16)

/-- The `#`-free prefix of an event-key (its stable-UID part). -/
def keyUidPart (k : String) : String := ofChars ((splitChar '#' k.data).headD [])

/-- Modelled from the spec: the constants module holding
`MS_TO_IANA_TIMEZONES` is not among the provided sources; these are the
four entries the spec names explicitly (at least 20 further entries exist
upstream). -/
def msTzMap : TzMap := fun t =>
  if t = "US Eastern Standard Time" then some "America/Indiana/Indianapolis"
  else if t = "Eastern Standard Time" then some "America/New_York"
  else if t = "Central Standard Time" then some "America/Chicago"
  else if t = "Pacific Standard Time" then some "America/Los_Angeles"
  else none

/-! ## Concrete inputs for witnesses and counterexamples -/

/-- A stand-in digest function for witness instantiations: 32 bytes, each
below 256, for every input. -/
def shaStub : Sha256 := fun _ => List.range 32

/-- A run context built from the stubs. -/
def ctxStub : RunCtx :=
  ⟨shaStub, fun _ => none, ["DTSTAMP", "DTSTART", "SUMMARY"], "America/New_York",
   1717200000000, "20240601T000000Z"⟩

/-- A small parsed event used by witnesses. -/
def evWitness : IcsEvent :=
  ⟨"AAA",
   [⟨"DTSTART", [("TZID", "Eastern Standard Time")], "20240601T090000"⟩,
    ⟨"SUMMARY", [], "M"⟩,
    ⟨"DTSTAMP", [], "20240520T000000Z"⟩],
   []⟩

/-- `evWitness` with only the DTSTAMP value changed. -/
def evWitnessStamp : IcsEvent :=
  ⟨"AAA",
   [⟨"DTSTART", [("TZID", "Eastern Standard Time")], "20240601T090000"⟩,
    ⟨"SUMMARY", [], "M"⟩,
    ⟨"DTSTAMP", [], "20240521T110000Z"⟩],
   []⟩

/-- A one-event parsed calendar used by the reconciler witnesses. -/
def calWitness : ParsedCalendar := ⟨["BEGIN:VCALENDAR"], [], [evWitness], ["END:VCALENDAR"]⟩

/-- An empty parsed calendar (no events) used by the cancellation witness. -/
def calEmpty : ParsedCalendar := ⟨["BEGIN:VCALENDAR"], [], [], ["END:VCALENDAR"]⟩

/-- A state map holding one record under the key `"K"`. -/
def stOneKey : KvMap := fun x => if x = "K" then some ⟨2, "h0", 5⟩ else none

/-- A floating DTSTART with no TZID parameter (counterexample input: the
source maps the tenant default through the timezone table before
emitting it). -/
def propFloatingNoTzid : IcsProperty := ⟨"DTSTART", [], "20240601T090000"⟩

/-- A floating DTSTART carrying a Windows TZID parameter. -/
def propFloatingTzid : IcsProperty :=
  ⟨"DTSTART", [("TZID", "Eastern Standard Time")], "20240601T090000"⟩

/-- An EXDATE mixing a date-only entry with a floating datetime entry
(counterexample input for the `VALUE=DATE` iff-all-date-only claim). -/
def propExdateMixed : IcsProperty := ⟨"EXDATE", [], "20240601,20240601T090000"⟩

/-- An RRULE with two single-weekday BYDAY clauses and a BYSETPOS clause
(counterexample input: the source still rewrites it). -/
def propRruleTwoByday : IcsProperty :=
  ⟨"RRULE", [], "FREQ=MONTHLY;BYDAY=MO;BYDAY=TU;BYSETPOS=1"⟩

/-- The spec's scenario S5 RRULE. -/
def propRruleS5 : IcsProperty := ⟨"RRULE", [], "FREQ=MONTHLY;BYDAY=MO;BYSETPOS=1"⟩

/-- An 80-character header line (13 + 67 characters), longer than the
75-character folding threshold. -/
def longHeaderLine : String :=
  "X-WR-CALNAME:" ++ ofChars (List.replicate 67 'a')

/-- A normalized calendar whose header holds `longHeaderLine`
(counterexample input for the serializer folding/termination claim). -/
def calLongHeader : NormalizedCalendar :=
  ⟨[longHeaderLine], [], [], ["END:VCALENDAR"], []⟩

/-- The cancellation event synthesized for a disappeared key `k` whose
stored state was `ps` (what `createCancelledEventFromState` builds). -/
def cancelledEventFor (ctx : RunCtx) (k : String) (ps : EventState) : NormalizedEvent :=
  let parts := splitChar '#' k.data
  let stableUid := if k.data.contains '#' then ofChars (parts.headD []) else k
  let recurrenceId : Option String :=
    if k.data.contains '#' then some (ofChars ((parts.drop 1).headD [])) else none
  ⟨stableUid, ps.sequence + 1, isTruthy recurrenceId, recurrenceId,
   createCancelledEventLines ctx.nowStamp stableUid (ps.sequence + 1) recurrenceId⟩

/-- The first sorted EXDATE/RDATE entry is nonempty and date-only (the
`normalized[0] && !normalized[0].includes('T')` test of the source). -/
def exdateFirstDateOnly (prop : IcsProperty) : Bool :=
  match exdateEntries prop with
  | h :: _ => decide (h ≠ "") && ! h.data.contains 'T'
  | [] => false

/-- The normalized TZID parameter of an EXDATE/RDATE property (`none` when
absent, `some ""` when present but empty and hence falsy). -/
def exdateTzid (tzmap : TzMap) (prop : IcsProperty) : Option String :=
  match getParam prop "TZID" with
  | some t => if t = "" then some "" else some (normalizeTimezone tzmap t)
  | none => none

end CalProxy

namespace CalProxy

/-! ## Helper lemmas -/

theorem strLeB_total (a b : String) : strLeB a b = true ∨ strLeB b a = true := by
  unfold strLeB
  generalize a.data = l
  generalize b.data = m
  induction l generalizing m with
  | nil => left; rfl
  | cons c cs ih =>
    cases m with
    | nil => right; rfl
    | cons d ds =>
      rcases lt_trichotomy c d with h | h | h
      · left; simp [lexLe, h]
      · subst h
        rcases ih ds with h1 | h1
        · left; simpa [lexLe] using h1
        · right; simpa [lexLe] using h1
      · right; simp [lexLe, h]

theorem lexLe_cons_iff (c d : Char) (cs ds : List Char) :
    lexLe (c :: cs) (d :: ds) = true ↔ c < d ∨ (c = d ∧ lexLe cs ds = true) := by
  have hstep : lexLe (c :: cs) (d :: ds) =
      if c < d then true else if c = d then lexLe cs ds else false := rfl
  rw [hstep]
  split_ifs with h1 h2 <;> simp_all

theorem lexLe_trans (a b c : List Char) (hab : lexLe a b = true) (hbc : lexLe b c = true) :
    lexLe a c = true := by
  induction a generalizing b c with
  | nil => rfl
  | cons x xs ih =>
    cases b with
    | nil => simp [lexLe] at hab
    | cons y ys =>
      cases c with
      | nil => simp [lexLe] at hbc
      | cons z zs =>
        rw [lexLe_cons_iff] at hab hbc ⊢
        rcases hab with h1 | ⟨h1, h1'⟩
        · rcases hbc with h2 | ⟨h2, h2'⟩
          · exact Or.inl (h1.trans h2)
          · exact Or.inl (h2 ▸ h1)
        · rcases hbc with h2 | ⟨h2, h2'⟩
          · exact Or.inl (h1 ▸ h2)
          · exact Or.inr ⟨h1.trans h2, ih ys zs h1' h2'⟩

theorem strLeB_trans (a b c : String) (hab : strLeB a b = true) (hbc : strLeB b c = true) :
    strLeB a c = true := lexLe_trans a.data b.data c.data hab hbc

theorem insertLe_perm {α : Type} (le : α → α → Bool) (x : α) (l : List α) :
    (insertLe le x l).Perm (x :: l) := by
  induction l with
  | nil => exact List.Perm.refl _
  | cons y ys ih =>
    unfold insertLe
    split
    · exact List.Perm.refl _
    · exact (ih.cons y).trans (List.Perm.swap x y ys)

theorem sortBy_perm {α : Type} (le : α → α → Bool) (l : List α) : (sortBy le l).Perm l := by
  induction l with
  | nil => exact List.Perm.refl _
  | cons x xs ih => exact (insertLe_perm le x (sortBy le xs)).trans (ih.cons x)

theorem insertLe_pairwise {α : Type} (le : α → α → Bool)
    (htrans : ∀ a b c, le a b = true → le b c = true → le a c = true)
    (htot : ∀ a b, le a b = true ∨ le b a = true) (x : α) (l : List α)
    (hl : l.Pairwise (fun a b => le a b = true)) :
    (insertLe le x l).Pairwise (fun a b => le a b = true) := by
  induction l with
  | nil => simp [insertLe]
  | cons y ys ih =>
    rcases List.pairwise_cons.mp hl with ⟨hy, hys⟩
    unfold insertLe
    split
    case isTrue h =>
      refine List.pairwise_cons.mpr ⟨?_, hl⟩
      intro z hz
      rcases List.mem_cons.mp hz with rfl | hz
      · exact h
      · exact htrans x y z h (hy z hz)
    case isFalse h =>
      refine List.pairwise_cons.mpr ⟨?_, ih hys⟩
      intro z hz
      rcases List.mem_cons.mp ((insertLe_perm le x ys).mem_iff.mp hz) with rfl | h1
      · rcases htot z y with h2 | h2
        · exact absurd h2 h
        · exact h2
      · exact hy z h1

theorem sortBy_pairwise {α : Type} (le : α → α → Bool)
    (htrans : ∀ a b c, le a b = true → le b c = true → le a c = true)
    (htot : ∀ a b, le a b = true ∨ le b a = true) (l : List α) :
    (sortBy le l).Pairwise (fun a b => le a b = true) := by
  induction l with
  | nil => simp [sortBy]
  | cons x xs ih => exact insertLe_pairwise le htrans htot x (sortBy le xs) ih

theorem sortStrings_pairwise (l : List String) :
    (sortStrings l).Pairwise (fun a b => strLeB a b = true) :=
  sortBy_pairwise strLeB strLeB_trans strLeB_total l

theorem sortStrings_perm (l : List String) : (sortStrings l).Perm l := sortBy_perm strLeB l

theorem specGroups_cons_shape (l : List Char) (ls : List (List Char)) :
    ∃ m gs, specGroups (l :: ls) = (l, m) :: gs := by
  cases hls : specGroups ls with
  | nil => exact ⟨[], [], by simp [specGroups, hls]⟩
  | cons g0 gs =>
    obtain ⟨g, m⟩ := g0
    by_cases hg : isContinuation g = true
    · exact ⟨g.tail ++ m, gs, by simp [specGroups, hls, hg]⟩
    · exact ⟨[], (g, m) :: gs, by simp [specGroups, hls, hg]⟩

theorem specGroups_merge_absorb (b l : List Char) (ls : List (List Char))
    (hc : isContinuation l = true) :
    (specGroups ((b ++ l.tail) :: ls)).map (fun g => g.1 ++ g.2) =
      (specGroups (b :: l :: ls)).map (fun g => g.1 ++ g.2) := by
  cases hls : specGroups ls with
  | nil => simp [specGroups, hls, hc, List.append_assoc]
  | cons g0 gs =>
    obtain ⟨g, m⟩ := g0
    by_cases hg : isContinuation g = true
    · simp [specGroups, hls, hc, hg, List.append_assoc]
    · simp [specGroups, hls, hc, hg, List.append_assoc]

theorem foldl_unfoldStep_spec (ls : List (List Char)) :
    ∀ (bs : List (List Char)) (b : List Char),
    ls.foldl unfoldStep (bs ++ [b]) = bs ++ (specGroups (b :: ls)).map (fun g => g.1 ++ g.2) := by
  induction ls with
  | nil =>
    intro bs b
    simp [specGroups]
  | cons l ls ih =>
    intro bs b
    rw [List.foldl_cons]
    by_cases hc : isContinuation l = true
    · have hstep : unfoldStep (bs ++ [b]) l = bs ++ [b ++ l.tail] := by
        unfold unfoldStep
        rw [if_pos ⟨hc, by simp⟩, List.dropLast_concat, List.getLastD_concat]
      rw [hstep, ih bs (b ++ l.tail), specGroups_merge_absorb b l ls hc]
    · have hstep : unfoldStep (bs ++ [b]) l = (bs ++ [b]) ++ [l] := by
        unfold unfoldStep
        rw [if_neg]
        simp [hc]
      rw [hstep, ih (bs ++ [b]) l]
      obtain ⟨m, gs, hshape⟩ := specGroups_cons_shape l ls
      have houter : specGroups (b :: l :: ls) = (b, []) :: specGroups (l :: ls) := by
        conv_lhs => rw [specGroups, hshape]
        rw [hshape]
        simp [hc]
      rw [houter]
      simp

theorem foldl_unfoldStep_eq_specGroups (ls : List (List Char)) :
    ls.foldl unfoldStep [] = (specGroups ls).map (fun g => g.1 ++ g.2) := by
  cases ls with
  | nil => rfl
  | cons l ls =>
    rw [List.foldl_cons]
    have hstep : unfoldStep [] l = [] ++ [l] := by
      unfold unfoldStep
      rw [if_neg]
      simp
    rw [hstep, foldl_unfoldStep_spec ls [] l]
    rfl

/-- C8 (amended): `unfoldLines` splits its input on CRLF or LF and merges
each maximal run of space/tab continuation lines into the line before it,
dropping each continuation's leading byte; a continuation at position 0
starts its own unfolded line (retaining its leading byte) rather than
being discarded. -/
theorem c8_unfoldLines_grouping (s : String) :
    unfoldLines s = (specGroups (splitNl s.data)).map mergeGroup := by
  unfold unfoldLines
  rw [foldl_unfoldStep_eq_specGroups]
  simp [mergeGroup]

/-- C8 counterexample: the claim says a continuation line at position 0 is
discarded and does not appear in the returned line list; the source keeps
it verbatim. -/
theorem c8_counterexample : unfoldLines " A" = [" A"] ∧ " A" ∈ unfoldLines " A" := by
  constructor
  · rfl
  · decide

theorem contains_append_singleton (m : List Char) (z c : Char) (h : z ≠ c) :
    (m ++ [z]).contains c = m.contains c := by
  have h1 : (c ∈ m ++ [z]) ↔ (c ∈ m) := by
    rw [List.mem_append]
    constructor
    · rintro (hm | hz)
      · exact hm
      · have e := List.mem_singleton.mp hz
        exact absurd e.symm h
    · exact Or.inl
  simp [List.contains, List.elem_eq_mem, h1]

theorem contains_stripZ (l : List Char) : (stripZ l).contains 'T' = l.contains 'T' := by
  unfold stripZ
  split
  case isTrue h =>
    have hne : l ≠ [] := by
      intro e
      simp [e] at h
    have hlast : l.getLast hne = 'Z' := by
      have hgl := List.getLast?_eq_getLast l hne
      rw [hgl, Option.some_inj] at h
      exact h
    conv_rhs => rw [← List.dropLast_append_getLast hne, hlast]
    exact (contains_append_singleton _ _ _ (by decide)).symm
  case isFalse h => rfl

/-- C5 (amended): DTSTART/DTEND values without a `T` are emitted as
`NAME;VALUE=DATE:<date>`; values with a `T` ending in `Z` as
`NAME:<date>T<time>Z`; floating values as `NAME;TZID=<tz>:<date>T<time>`
where `<tz>` is the (nonempty) TZID parameter when present and otherwise
the tenant default zone, the chosen identifier being passed through the
timezone mapping in both cases. -/
theorem c5_datetime_emission (tzmap : TzMap) (prop : IcsProperty) (defaultTz : String) :
    (prop.value.data.contains 'T' = false →
      normalizeDateTimeProp tzmap prop defaultTz =
        prop.name ++ ";VALUE=DATE:" ++ ofChars (stripZ prop.value.data)) ∧
    (prop.value.data.contains 'T' = true → prop.value.data.getLast? = some 'Z' →
      normalizeDateTimeProp tzmap prop defaultTz =
        prop.name ++ ":" ++ dateOf prop.value ++ "T" ++ timeOf prop.value ++ "Z") ∧
    (prop.value.data.contains 'T' = true → ¬ prop.value.data.getLast? = some 'Z' →
      normalizeDateTimeProp tzmap prop defaultTz =
        prop.name ++ ";TZID=" ++
          normalizeTimezone tzmap (orDefault (getParam prop "TZID") defaultTz) ++ ":" ++
          dateOf prop.value ++ "T" ++ timeOf prop.value) := by
  refine ⟨?_, ?_, ?_⟩
  · intro hT
    unfold normalizeDateTimeProp parseDateTimeValue
    by_cases hZ : prop.value.data.getLast? = some 'Z'
    · have hT' : prop.value.data.dropLast.contains 'T' = false := by
        have hs := contains_stripZ prop.value.data
        rw [stripZ, if_pos hZ] at hs
        rw [hs, hT]
      have hT2 : ¬ ('T' ∈ prop.value.data.dropLast) := by simpa using hT'
      simp [hZ, hT2, stripZ]
    · have hT2 : ¬ ('T' ∈ prop.value.data) := by simpa using hT
      simp [hZ, hT2, stripZ]
  · intro hT hZ
    have hT' : prop.value.data.dropLast.contains 'T' = true := by
      have hs := contains_stripZ prop.value.data
      rw [stripZ, if_pos hZ] at hs
      rw [hs, hT]
    have hT2 : 'T' ∈ prop.value.data.dropLast := by simpa using hT'
    unfold normalizeDateTimeProp parseDateTimeValue dateOf timeOf
    simp [hZ, hT2, stripZ]
  · intro hT hZ
    have hT2 : 'T' ∈ prop.value.data := by simpa using hT
    unfold normalizeDateTimeProp parseDateTimeValue dateOf timeOf
    simp [hZ, hT2, stripZ]

/-- C5 witness: a floating value with a Windows TZID parameter is emitted
with the mapped IANA identifier. -/
theorem c5_witness :
    normalizeDateTimeProp msTzMap propFloatingTzid "X" =
      "DTSTART;TZID=America/New_York:20240601T090000" := by
  have h := (c5_datetime_emission msTzMap propFloatingTzid "X").2.2
  exact (h (by decide) (by decide)).trans (by decide)

/-- C5 counterexample: the claim says a floating value with no TZID
parameter is emitted with the tenant's configured default zone; the source
passes the default through the timezone mapping first, so a Windows-name
default is emitted as its IANA translation. -/
theorem c5_counterexample :
    normalizeDateTimeProp msTzMap propFloatingNoTzid "Eastern Standard Time" =
      "DTSTART;TZID=America/New_York:20240601T090000" ∧
    normalizeDateTimeProp msTzMap propFloatingNoTzid "Eastern Standard Time" ≠
      "DTSTART" ++ ";TZID=" ++ "Eastern Standard Time" ++ ":" ++ "20240601" ++ "T" ++ "090000" := by
  constructor
  · rfl
  · decide

/-- C6 (amended): each EXDATE/RDATE entry is trimmed, classified and
reassembled under the datetime rules, and the entry list is sorted
lexicographically (ASCII) and rejoined with commas; the emitted property
carries `VALUE=DATE` iff the first sorted entry is nonempty and date-only,
and otherwise carries `TZID=<mapped tz>` iff the property has a nonempty
TZID parameter. -/
theorem c6_exdate_characterization (tzmap : TzMap) (prop : IcsProperty) :
    (exdateEntries prop).Pairwise (fun a b => strLeB a b = true) ∧
    (exdateEntries prop).Perm ((splitChar ',' prop.value.data).map normalizeDateEntry) ∧
    normalizeExdateRdate tzmap prop =
      (if exdateFirstDateOnly prop then
        prop.name ++ ";VALUE=DATE:" ++ String.intercalate "," (exdateEntries prop)
       else if isTruthy (exdateTzid tzmap prop) then
        prop.name ++ ";TZID=" ++ (exdateTzid tzmap prop).getD "" ++ ":" ++
          String.intercalate "," (exdateEntries prop)
       else prop.name ++ ":" ++ String.intercalate "," (exdateEntries prop)) := by
  refine ⟨sortStrings_pairwise _, sortStrings_perm _, ?_⟩
  unfold normalizeExdateRdate exdateFirstDateOnly exdateTzid
  rfl

/-- C6 counterexample: the claim says `VALUE=DATE` is carried iff all
entries are date-only; the source checks only the first sorted entry, so a
mixed list is still emitted as `VALUE=DATE`. -/
theorem c6_counterexample :
    normalizeExdateRdate msTzMap propExdateMixed =
      "EXDATE;VALUE=DATE:20240601,20240601T090000" ∧
    ("20240601T090000" : String) ∈
      (splitChar ',' propExdateMixed.value.data).map normalizeDateEntry ∧
    "20240601T090000".data.contains 'T' = true := by
  refine ⟨rfl, by decide, by decide⟩

/-- C7 (amended): when the RRULE value has a `BYSETPOS=<n>` match and a
`BYDAY=` followed by two uppercase letters, and no `BYDAY=` run contains a
comma before a semicolon, the first `BYSETPOS` clause (with its preceding
semicolon) is removed and the first two-letter `BYDAY` is rewritten to
`BYDAY=<n><wd>`; every other RRULE value is emitted verbatim.  The source
does not require the `BYDAY` clause to be unique. -/
theorem c7_rrule_rewrite (prop : IcsProperty) :
    (bysetposCapture prop.value.data = none ∨ bydayCapture prop.value.data = none ∨
      hasBydayComma prop.value.data = true → normalizeRrule prop = "RRULE:" ++ prop.value) ∧
    (∀ pos day, bysetposCapture prop.value.data = some pos →
      bydayCapture prop.value.data = some day →
      hasBydayComma prop.value.data = false →
      normalizeRrule prop =
        "RRULE:" ++
          ofChars (replaceBydayFirst (pos.data ++ day.data)
            (removeBysetposFirst prop.value.data))) := by
  constructor
  · intro h
    unfold normalizeRrule
    rcases h with h | h | h
    · simp [h]
    · cases hb : bysetposCapture prop.value.data <;> simp [h, hb]
    · cases hb : bysetposCapture prop.value.data <;>
        cases hd : bydayCapture prop.value.data <;> simp [h, hb, hd]
  · intro pos day hb hd hc
    unfold normalizeRrule
    simp [hb, hd, hc]

/-- C7 witness: the spec's scenario S5. -/
theorem c7_witness : normalizeRrule propRruleS5 = "RRULE:FREQ=MONTHLY;BYDAY=1MO" := by
  have h := (c7_rrule_rewrite propRruleS5).2 "1" "MO" (by decide) (by decide) (by decide)
  exact h.trans (by decide)

/-- C7 counterexample: the claim requires exactly one BYDAY clause for the
rewrite and verbatim output otherwise; on a value with two BYDAY clauses
the source still rewrites the first one. -/
theorem c7_counterexample :
    normalizeRrule propRruleTwoByday = "RRULE:FREQ=MONTHLY;BYDAY=1MO;BYDAY=TU" ∧
    normalizeRrule propRruleTwoByday ≠ "RRULE:" ++ propRruleTwoByday.value := by
  constructor
  · rfl
  · decide

theorem flatten_byteToHex_length (bs : List Nat) :
    ((bs.map byteToHex).flatten).length = 2 * bs.length := by
  induction bs with
  | nil => simp
  | cons b bs ih =>
    simp [byteToHex, ih]
    omega

theorem hexDigit_mem (n : Nat) (h : n < 16) : hexDigit n ∈ hexChars := by
  unfold hexDigit
  have hlen : n < hexChars.length := by simpa [hexChars] using h
  rw [List.getD_eq_getElem?_getD, List.getElem?_eq_getElem hlen]
  simp

theorem bytesToHex_subset_hexChars (bs : List Nat) (hb : ∀ b ∈ bs, b < 256) :
    ∀ c ∈ (bytesToHex bs).data, c ∈ hexChars := by
  intro c hc
  unfold bytesToHex ofChars at hc
  rcases List.mem_flatten.mp hc with ⟨l, hl, hcl⟩
  rcases List.mem_map.mp hl with ⟨b, hbmem, rfl⟩
  have hb256 := hb b hbmem
  unfold byteToHex at hcl
  rcases List.mem_cons.mp hcl with rfl | hcl
  · exact hexDigit_mem _ (by omega)
  · rcases List.mem_singleton.mp hcl with rfl
    exact hexDigit_mem _ (by omega)

/-- C3: `computeStableUid` is the lowercase hexadecimal rendering (32
characters) of the first 16 bytes of the digest of
`DTSTART|SUMMARY|ORGANIZER|UID` (each value empty when the property is
absent), and hence depends only on those four values, independently of
property order, parameter order, or volatile properties. -/
theorem c3_stable_uid (sha256 : Sha256) (h32 : ∀ s, (sha256 s).length = 32)
    (hbyte : ∀ s b, b ∈ sha256 s → b < 256) :
    (∀ event : IcsEvent,
      computeStableUid sha256 event = specStableUid sha256 event ∧
      (computeStableUid sha256 event).length = 32 ∧
      ∀ c ∈ (computeStableUid sha256 event).data, c ∈ hexChars) ∧
    (∀ e1 e2 : IcsEvent,
      (getProperty e1 "DTSTART").map IcsProperty.value =
        (getProperty e2 "DTSTART").map IcsProperty.value →
      (getProperty e1 "SUMMARY").map IcsProperty.value =
        (getProperty e2 "SUMMARY").map IcsProperty.value →
      (getProperty e1 "ORGANIZER").map IcsProperty.value =
        (getProperty e2 "ORGANIZER").map IcsProperty.value →
      e1.uid = e2.uid →
      computeStableUid sha256 e1 = computeStableUid sha256 e2) := by
  constructor
  · intro event
    refine ⟨rfl, ?_, ?_⟩
    · show ((((sha256 (stableUidComponents event)).take 16).map byteToHex).flatten).length = 32
      rw [flatten_byteToHex_length, List.length_take, h32]
      omega
    · exact bytesToHex_subset_hexChars _
        (fun b hbmem => hbyte _ b (List.mem_of_mem_take hbmem))
  · intro e1 e2 h1 h2 h3 h4
    unfold computeStableUid stableUidComponents
    rw [h1, h2, h3, h4]

/-- C3 witness: the theorem instantiated at a concrete digest stub and
event; the rendering of bytes `0..15` is the expected 32 hex characters. -/
theorem c3_witness :
    computeStableUid shaStub evWitness = specStableUid shaStub evWitness ∧
    (computeStableUid shaStub evWitness).length = 32 ∧
    computeStableUid shaStub evWitness = "000102030405060708090a0b0c0d0e0f" := by
  have h := (c3_stable_uid shaStub (fun s => by simp [shaStub])
    (fun s b hb => by simp [shaStub] at hb; omega)).1 evWitness
  exact ⟨h.1, h.2.1, rfl⟩

theorem find_name_stableProps (l : List IcsProperty) (n : String)
    (hn : volatileNames.contains n = false) :
    l.find? (fun p => p.name = n) =
      (l.filter (fun p => ¬ volatileNames.contains p.name)).find? (fun p => p.name = n) := by
  have hn' : n ∉ volatileNames := by simpa using hn
  induction l with
  | nil => rfl
  | cons p t ih =>
    by_cases hp : p.name = n
    · rw [List.filter_cons_of_pos (by simp [hp]; exact hn')]
      rw [List.find?_cons_of_pos _ (by simp [hp]), List.find?_cons_of_pos _ (by simp [hp])]
    · rw [List.find?_cons_of_neg _ (by simp [hp])]
      by_cases hv : volatileNames.contains p.name = true
      · have hv' : p.name ∈ volatileNames := by simpa using hv
        rw [List.filter_cons_of_neg (by simpa using hv')]
        exact ih
      · have hv' : p.name ∉ volatileNames := by simpa using hv
        rw [List.filter_cons_of_pos (by simpa using hv')]
        rw [List.find?_cons_of_neg _ (by simp [hp])]
        exact ih

theorem getProperty_eq_of_stableProps (e1 e2 : IcsEvent) (n : String)
    (hn : volatileNames.contains n = false) (h : stableProps e1 = stableProps e2) :
    getProperty e1 n = getProperty e2 n := by
  unfold getProperty
  rw [find_name_stableProps e1.properties n hn, find_name_stableProps e2.properties n hn]
  unfold stableProps at h
  rw [h]

/-- C4: two events with the same upstream UID that differ only in the
values or presence of DTSTAMP, LAST-MODIFIED, or SEQUENCE (their non-
volatile property lists agree) get the same content hash, and against the
same prior state the per-event loop derives the same output sequence. -/
theorem c4_volatility (ctx : RunCtx) (st : KvMap) (e1 e2 : IcsEvent)
    (huid : e1.uid = e2.uid) (hstable : stableProps e1 = stableProps e2) :
    computeContentHash ctx.sha256 e1 = computeContentHash ctx.sha256 e2 ∧
    (processEvent ctx st e1).ne.sequence = (processEvent ctx st e2).ne.sequence := by
  have hhash : computeContentHash ctx.sha256 e1 = computeContentHash ctx.sha256 e2 := by
    unfold computeContentHash
    rw [hstable]
  have hdt := getProperty_eq_of_stableProps e1 e2 "DTSTART" (by decide) hstable
  have hsu := getProperty_eq_of_stableProps e1 e2 "SUMMARY" (by decide) hstable
  have hor := getProperty_eq_of_stableProps e1 e2 "ORGANIZER" (by decide) hstable
  have hrid := getProperty_eq_of_stableProps e1 e2 "RECURRENCE-ID" (by decide) hstable
  have huid2 : computeStableUid ctx.sha256 e1 = computeStableUid ctx.sha256 e2 := by
    unfold computeStableUid stableUidComponents
    rw [hdt, hsu, hor, huid]
  have hkey : eventKeyOf ctx.sha256 e1 = eventKeyOf ctx.sha256 e2 := by
    unfold eventKeyOf
    rw [huid2, hrid]
  refine ⟨hhash, ?_⟩
  unfold processEvent
  simp only [huid2, hrid, hhash, hkey]

/-- C4 witness: two concrete events differing only in their DTSTAMP value
hash identically and derive the same sequence from a populated state. -/
theorem c4_witness :
    computeContentHash ctxStub.sha256 evWitness = computeContentHash ctxStub.sha256 evWitnessStamp ∧
    (processEvent ctxStub stOneKey evWitness).ne.sequence =
      (processEvent ctxStub stOneKey evWitnessStamp).ne.sequence :=
  c4_volatility ctxStub stOneKey evWitness evWitnessStamp rfl (by decide)

theorem intercalate_go_acc (s : String) (xs : List String) :
    ∀ a b : String, String.intercalate.go (a ++ b) s xs = a ++ String.intercalate.go b s xs := by
  induction xs with
  | nil => intro a b; rfl
  | cons c cs ih =>
    intro a b
    show String.intercalate.go (a ++ b ++ s ++ c) s cs =
      a ++ String.intercalate.go (b ++ s ++ c) s cs
    rw [String.append_assoc, String.append_assoc, ← String.append_assoc b s c]
    exact ih a (b ++ s ++ c)

theorem joinCRLF_cons_cons (x y : String) (xs : List String) :
    joinCRLF (x :: y :: xs) = x ++ "\r\n" ++ joinCRLF (y :: xs) := by
  show String.intercalate.go (x ++ "\r\n" ++ y) "\r\n" xs =
    x ++ "\r\n" ++ String.intercalate.go y "\r\n" xs
  exact intercalate_go_acc "\r\n" xs (x ++ "\r\n") y

theorem join_cons (x : String) (xs : List String) :
    String.join (x :: xs) = x ++ String.join xs := by
  have hacc : ∀ (ys : List String) (a b : String),
      ys.foldl (· ++ ·) (a ++ b) = a ++ ys.foldl (· ++ ·) b := by
    intro ys
    induction ys with
    | nil => intro a b; rfl
    | cons c cs ih =>
      intro a b
      show cs.foldl (· ++ ·) (a ++ b ++ c) = a ++ cs.foldl (· ++ ·) (b ++ c)
      rw [String.append_assoc]
      exact ih a (b ++ c)
  show xs.foldl (· ++ ·) ("" ++ x) = x ++ xs.foldl (· ++ ·) ""
  rw [String.empty_append, ← String.append_empty x, hacc xs x ""]
  simp

theorem ofChars_data (l : List Char) : (ofChars l).data = l := rfl

theorem foldRest_eq_chunks (l : List Char) :
    foldRest l = (chunks74 l).map (fun c => ofChars (' ' :: c)) := by
  induction l using foldRest.induct with
  | case1 => simp [foldRest, chunks74]
  | case2 c cs ih =>
    rw [foldRest, chunks74, List.map_cons, ih]

theorem joinCRLF_space_chunks (a : String) (cs : List (List Char)) :
    joinCRLF (a :: cs.map (fun c => ofChars (' ' :: c))) =
      a ++ String.join (cs.map (fun c => "\r\n " ++ ofChars c)) := by
  induction cs generalizing a with
  | nil => simp [joinCRLF, String.intercalate, String.intercalate.go, String.join]
  | cons c cs ih =>
    rw [List.map_cons, joinCRLF_cons_cons, ih, List.map_cons, join_cons]
    apply String.ext
    have h1 : ("\r\n" : String).data = ['\r', '\n'] := rfl
    have h2 : ("\r\n " : String).data = ['\r', '\n', ' '] := rfl
    simp [ofChars_data, h1, h2]

/-- C9 (amended): every event line longer than 75 characters is folded (the
first 75 characters stand, each subsequent chunk of at most 74 characters
is space-prefixed and preceded by CRLF); the serialized calendar joins the
header lines, the (possibly injected and TZID-rewritten) timezone blocks,
the folded event lines and the footer lines with CRLF separators, so every
element except the last is CRLF-terminated and the final line carries no
terminator; header, timezone and footer lines are not folded. -/
theorem c9_serialize_folding :
    (∀ line : String, foldLine line = specFoldLine line) ∧
    (∀ (tzmap : TzMap) (cal : NormalizedCalendar) (tz : String),
      serializeCalendar tzmap cal tz =
        joinCRLF (cal.headerLines ++
          (if ¬ cal.timezoneBlocks.any (fun b => hasInfixL ("TZID:" ++ tz).data b.data) then
            [generateVtimezone tz] else []) ++
          cal.timezoneBlocks.map (rewriteTzBlock tzmap) ++
          ((sortEvents cal.normalizedEvents).flatMap NormalizedEvent.lines).map foldLine ++
          cal.footerLines)) ∧
    (joinCRLF [] = "" ∧ (∀ x : String, joinCRLF [x] = x) ∧
      ∀ (x y : String) (xs : List String),
        joinCRLF (x :: y :: xs) = x ++ "\r\n" ++ joinCRLF (y :: xs)) := by
  refine ⟨?_, ?_, rfl, fun x => rfl, joinCRLF_cons_cons⟩
  · intro line
    unfold foldLine specFoldLine
    by_cases h : line.length ≤ 75
    · simp [h]
    · rw [if_neg h, if_neg h, foldRest_eq_chunks]
      exact joinCRLF_space_chunks _ _
  · intro tzmap cal tz
    unfold serializeCalendar serializeElements
    rw [List.map_flatMap]

/-- C9 counterexample: with an 80-character header line the serialized
output still contains it unfolded as its first CRLF-delimited line, and the
output does not end in CRLF, refuting both the fold-every-line and the
all-lines-CRLF-terminated readings. -/
theorem c9_counterexample :
    (splitCRLF (serializeCalendar (fun _ => none) calLongHeader "UTC").data).headD [] =
      longHeaderLine.data ∧
    longHeaderLine.length = 80 ∧
    (serializeCalendar (fun _ => none) calLongHeader "UTC").data.getLast? ≠ some '\n' := by
  refine ⟨by decide, by decide, by decide⟩

theorem parse_tz_swallow (ts : List String) :
    ∀ st : ParseState, st.inTimezone = true → "END:VTIMEZONE" ∉ ts →
      resultOf (ts.foldl parseStep st) = resultOf st ∧
        (ts.foldl parseStep st).inTimezone = true := by
  induction ts with
  | nil => intro st h _; exact ⟨rfl, h⟩
  | cons l ts ih =>
    intro st h hmem
    have hl : l ≠ "END:VTIMEZONE" := fun e => hmem (e ▸ List.mem_cons_self l ts)
    have hmem' : "END:VTIMEZONE" ∉ ts := fun hm => hmem (List.mem_cons_of_mem l hm)
    rw [List.foldl_cons]
    by_cases hb : l = "BEGIN:VTIMEZONE"
    · have hstep : parseStep st l = { st with inTimezone := true, currentTimezoneLines := [l] } := by
        unfold parseStep
        rw [if_pos hb]
      rcases ih (parseStep st l) (by rw [hstep]) hmem' with ⟨h1, h2⟩
      refine ⟨?_, h2⟩
      rw [h1, hstep]
      rfl
    · have hstep : parseStep st l =
          { st with currentTimezoneLines := st.currentTimezoneLines ++ [l] } := by
        unfold parseStep
        rw [if_neg hb, if_pos h, if_neg hl]
      rcases ih (parseStep st l) (by rw [hstep]; exact h) hmem' with ⟨h1, h2⟩
      refine ⟨?_, h2⟩
      rw [h1, hstep]
      rfl

theorem parse_event_swallow (ts : List String) :
    ∀ st : ParseState, st.inEvent = true → st.inTimezone = false →
      "BEGIN:VTIMEZONE" ∉ ts → "END:VEVENT" ∉ ts →
      resultOf (ts.foldl parseStep st) = resultOf st := by
  induction ts with
  | nil => intro st _ _ _ _; rfl
  | cons l ts ih =>
    intro st hev htz hmem1 hmem2
    have hl1 : l ≠ "BEGIN:VTIMEZONE" := fun e => hmem1 (e ▸ List.mem_cons_self l ts)
    have hl2 : l ≠ "END:VEVENT" := fun e => hmem2 (e ▸ List.mem_cons_self l ts)
    have hmem1' : "BEGIN:VTIMEZONE" ∉ ts := fun hm => hmem1 (List.mem_cons_of_mem l hm)
    have hmem2' : "END:VEVENT" ∉ ts := fun hm => hmem2 (List.mem_cons_of_mem l hm)
    rw [List.foldl_cons]
    by_cases hb : l = "BEGIN:VEVENT"
    · have hstep : parseStep st l =
          { st with headerDone := true, inEvent := true, currentEventLines := [l],
                    currentEventProps := [], currentUid := "" } := by
        unfold parseStep
        rw [if_neg hl1, if_neg (by simp [htz]), if_pos hb]
      rw [ih (parseStep st l) (by rw [hstep]) (by rw [hstep]; exact htz) hmem1' hmem2', hstep]
      rfl
    · have hstep : resultOf (parseStep st l) = resultOf st ∧
          (parseStep st l).inEvent = true ∧ (parseStep st l).inTimezone = false := by
        unfold parseStep
        rw [if_neg hl1, if_neg (by simp [htz]), if_neg hb, if_pos hev, if_neg hl2]
        cases hp : parseProperty l <;> exact ⟨rfl, hev, htz⟩
      rcases hstep with ⟨h1, h2, h3⟩
      rw [ih _ h2 h3 hmem1' hmem2', h1]

/-- C10: `parseIcs` is total on strings, and an unterminated block
contributes nothing to the result: appending `BEGIN:VTIMEZONE` and any
tail with no `END:VTIMEZONE` leaves the parse of the prefix unchanged, and
likewise appending `BEGIN:VEVENT` and any tail with no `END:VEVENT` (and
no timezone block opening) when no timezone block is pending. -/
theorem c10_unterminated_blocks :
    (∀ s : String, parseIcs s = resultOf (parseIcsLines (unfoldLines s))) ∧
    (∀ (ls ts : List String), "END:VTIMEZONE" ∉ ts →
      resultOf (parseIcsLines (ls ++ "BEGIN:VTIMEZONE" :: ts)) = resultOf (parseIcsLines ls)) ∧
    (∀ (ls ts : List String), (parseIcsLines ls).inTimezone = false →
      "BEGIN:VTIMEZONE" ∉ ts → "END:VEVENT" ∉ ts →
      resultOf (parseIcsLines (ls ++ "BEGIN:VEVENT" :: ts)) = resultOf (parseIcsLines ls)) := by
  refine ⟨fun s => rfl, ?_, ?_⟩
  · intro ls ts hmem
    unfold parseIcsLines
    rw [List.foldl_append, List.foldl_cons]
    set st := ls.foldl parseStep initParseState with hst
    have hstep : parseStep st "BEGIN:VTIMEZONE" =
        { st with inTimezone := true, currentTimezoneLines := ["BEGIN:VTIMEZONE"] } := by
      unfold parseStep
      rw [if_pos rfl]
    rcases parse_tz_swallow ts (parseStep st "BEGIN:VTIMEZONE") (by rw [hstep]) hmem with ⟨h1, _⟩
    rw [h1, hstep]
    rfl
  · intro ls ts htz hmem1 hmem2
    unfold parseIcsLines at htz ⊢
    rw [List.foldl_append, List.foldl_cons]
    set st := ls.foldl parseStep initParseState with hst
    have hstep : parseStep st "BEGIN:VEVENT" =
        { st with headerDone := true, inEvent := true,
                  currentEventLines := ["BEGIN:VEVENT"], currentEventProps := [],
                  currentUid := "" } := by
      unfold parseStep
      rw [if_neg (by decide), if_neg (by simp [htz]), if_pos rfl]
    have hres := parse_event_swallow ts (parseStep st "BEGIN:VEVENT") (by rw [hstep])
      (by rw [hstep]; exact htz) hmem1 hmem2
    rw [hres, hstep]
    rfl

/-- C10 witness: a concrete unterminated VTIMEZONE and a concrete
unterminated VEVENT each leave the parse of the preceding lines
unchanged. -/
theorem c10_witness :
    resultOf (parseIcsLines (["BEGIN:VCALENDAR"] ++ "BEGIN:VTIMEZONE" :: ["SUMMARY:x"])) =
      resultOf (parseIcsLines ["BEGIN:VCALENDAR"]) ∧
    resultOf (parseIcsLines (["BEGIN:VCALENDAR"] ++ "BEGIN:VEVENT" :: ["SUMMARY:x"])) =
      resultOf (parseIcsLines ["BEGIN:VCALENDAR"]) := by
  constructor
  · exact c10_unterminated_blocks.2.1 ["BEGIN:VCALENDAR"] ["SUMMARY:x"] (by decide)
  · exact c10_unterminated_blocks.2.2 ["BEGIN:VCALENDAR"] ["SUMMARY:x"] (by decide) (by decide)
      (by decide)

theorem processEvent_key (ctx : RunCtx) (st : KvMap) (e : IcsEvent) :
    (processEvent ctx st e).key = eventKeyOf ctx.sha256 e := rfl

theorem processEvent_state_ne (ctx : RunCtx) (st : KvMap) (e : IcsEvent) (k : String)
    (hk : k ≠ eventKeyOf ctx.sha256 e) :
    (processEvent ctx st e).state k = st k := by
  unfold processEvent
  simp [hk]

theorem processEvent_sequence (ctx : RunCtx) (st : KvMap) (e : IcsEvent) :
    (processEvent ctx st e).ne.sequence =
      match st (eventKeyOf ctx.sha256 e) with
      | some prev =>
        if prev.contentHash ≠ computeContentHash ctx.sha256 e then prev.sequence + 1
        else prev.sequence
      | none => 0 := rfl

theorem processEvent_state_self (ctx : RunCtx) (st : KvMap) (e : IcsEvent) :
    (processEvent ctx st e).state (eventKeyOf ctx.sha256 e) =
      some ⟨(processEvent ctx st e).ne.sequence, computeContentHash ctx.sha256 e, ctx.now⟩ := by
  unfold processEvent
  simp

theorem normalizeEventLines_seq_mem (tzmap : TzMap) (porder : List String) (event : IcsEvent)
    (stableUid : String) (sequence : Nat) (tz : String) :
    ("SEQUENCE:" ++ toString sequence) ∈
      normalizeEventLines tzmap porder event stableUid sequence tz := by
  unfold normalizeEventLines
  simp

theorem phase1_events_length (ctx : RunCtx) (es : List IcsEvent) :
    ∀ st : KvMap, (phase1 ctx st es).events.length = es.length := by
  induction es with
  | nil => intro st; rfl
  | cons e es ih =>
    intro st
    show ((processEvent ctx st e).ne :: (phase1 ctx (processEvent ctx st e).state es).events).length
      = es.length + 1
    simp [ih]

theorem phase1_currentKeys (ctx : RunCtx) (es : List IcsEvent) :
    ∀ st : KvMap, (phase1 ctx st es).currentKeys = es.map (eventKeyOf ctx.sha256) := by
  induction es with
  | nil => intro st; rfl
  | cons e es ih =>
    intro st
    show (processEvent ctx st e).key :: (phase1 ctx (processEvent ctx st e).state es).currentKeys
      = eventKeyOf ctx.sha256 e :: es.map (eventKeyOf ctx.sha256)
    rw [processEvent_key, ih]

theorem phase1_state_not_mem (ctx : RunCtx) (es : List IcsEvent) :
    ∀ (st : KvMap) (k : String), (∀ e ∈ es, k ≠ eventKeyOf ctx.sha256 e) →
      (phase1 ctx st es).state k = st k := by
  induction es with
  | nil => intro st k _; rfl
  | cons e es ih =>
    intro st k hk
    show (phase1 ctx (processEvent ctx st e).state es).state k = st k
    rw [ih _ k (fun e' he' => hk e' (List.mem_cons_of_mem e he'))]
    exact processEvent_state_ne ctx st e k (hk e (List.mem_cons_self e es))

theorem phase1_index (ctx : RunCtx) (es : List IcsEvent) :
    ∀ (st0 : KvMap) (i : Nat) (h : i < es.length),
      (phase1 ctx st0 es).events[i]? =
        some (processEvent ctx (phase1 ctx st0 (es.take i)).state (es.get ⟨i, h⟩)).ne ∧
      (phase1 ctx st0 (es.take (i + 1))).state =
        (processEvent ctx (phase1 ctx st0 (es.take i)).state (es.get ⟨i, h⟩)).state := by
  induction es with
  | nil =>
    intro st0 i h
    exact absurd h (by simp)
  | cons e es ih =>
    intro st0 i h
    cases i with
    | zero =>
      constructor
      · show ((processEvent ctx st0 e).ne ::
            (phase1 ctx (processEvent ctx st0 e).state es).events)[0]? = _
        rw [List.getElem?_cons_zero]
        rfl
      · rfl
    | succ i =>
      have h' : i < es.length := by simpa using h
      rcases ih (processEvent ctx st0 e).state i h' with ⟨h1, h2⟩
      constructor
      · show ((processEvent ctx st0 e).ne ::
            (phase1 ctx (processEvent ctx st0 e).state es).events)[i + 1]? = _
        rw [List.getElem?_cons_succ, h1]
        rfl
      · show (phase1 ctx st0 (e :: es.take (i + 1))).state = _
        show (phase1 ctx (processEvent ctx st0 e).state (es.take (i + 1))).state = _
        rw [h2]
        rfl

/-- C1: for the i-th event processed by `normalizeCalendar`: with no prior
state record at its event-key the emitted sequence is 0; with a prior
record of equal content hash it is the stored sequence; with a differing
hash it is the stored sequence plus one; and in every case the state
record for the key is rewritten with the emitted sequence, the new hash
and the current timestamp. -/
theorem c1_sequence_derivation (ctx : RunCtx) (st0 : KvMap) (snap : Option CalendarSnapshot)
    (parsed : ParsedCalendar) (i : Nat) (h : i < parsed.events.length) :
    (((phase1 ctx st0 (parsed.events.take i)).state
        (eventKeyOf ctx.sha256 (parsed.events.get ⟨i, h⟩)) = none →
      ((normalizeCalendar ctx st0 snap parsed).normalizedEvents[i]?).map
        NormalizedEvent.sequence = some 0) ∧
    (∀ ps : EventState,
      (phase1 ctx st0 (parsed.events.take i)).state
        (eventKeyOf ctx.sha256 (parsed.events.get ⟨i, h⟩)) = some ps →
      ps.contentHash = computeContentHash ctx.sha256 (parsed.events.get ⟨i, h⟩) →
      ((normalizeCalendar ctx st0 snap parsed).normalizedEvents[i]?).map
        NormalizedEvent.sequence = some ps.sequence) ∧
    (∀ ps : EventState,
      (phase1 ctx st0 (parsed.events.take i)).state
        (eventKeyOf ctx.sha256 (parsed.events.get ⟨i, h⟩)) = some ps →
      ps.contentHash ≠ computeContentHash ctx.sha256 (parsed.events.get ⟨i, h⟩) →
      ((normalizeCalendar ctx st0 snap parsed).normalizedEvents[i]?).map
        NormalizedEvent.sequence = some (ps.sequence + 1)) ∧
    (∀ ne : NormalizedEvent,
      (normalizeCalendar ctx st0 snap parsed).normalizedEvents[i]? = some ne →
      ("SEQUENCE:" ++ toString ne.sequence) ∈ ne.lines ∧
      (phase1 ctx st0 (parsed.events.take (i + 1))).state
          (eventKeyOf ctx.sha256 (parsed.events.get ⟨i, h⟩)) =
        some ⟨ne.sequence, computeContentHash ctx.sha256 (parsed.events.get ⟨i, h⟩),
              ctx.now⟩)) := by
  rcases phase1_index ctx parsed.events st0 i h with ⟨h1, h2⟩
  have hidx : (normalizeCalendar ctx st0 snap parsed).normalizedEvents[i]? =
      (phase1 ctx st0 parsed.events).events[i]? := by
    unfold normalizeCalendar
    exact List.getElem?_append_left (by rw [phase1_events_length]; exact h)
  refine ⟨?_, ?_, ?_, ?_⟩
  · intro hnone
    rw [hidx, h1]
    show some ((processEvent ctx (phase1 ctx st0 (parsed.events.take i)).state
        (parsed.events.get ⟨i, h⟩)).ne.sequence) = some 0
    rw [processEvent_sequence, hnone]
  · intro ps hsome heq
    rw [hidx, h1]
    show some ((processEvent ctx (phase1 ctx st0 (parsed.events.take i)).state
        (parsed.events.get ⟨i, h⟩)).ne.sequence) = some ps.sequence
    rw [processEvent_sequence, hsome]
    simp [heq]
  · intro ps hsome hne
    rw [hidx, h1]
    show some ((processEvent ctx (phase1 ctx st0 (parsed.events.take i)).state
        (parsed.events.get ⟨i, h⟩)).ne.sequence) = some (ps.sequence + 1)
    rw [processEvent_sequence, hsome]
    show some (if ps.contentHash ≠ computeContentHash ctx.sha256 (parsed.events.get ⟨i, h⟩) then
        ps.sequence + 1 else ps.sequence) = some (ps.sequence + 1)
    rw [if_pos hne]
  · intro ne hne
    rw [hidx, h1] at hne
    have hne' : (processEvent ctx (phase1 ctx st0 (parsed.events.take i)).state
        (parsed.events.get ⟨i, h⟩)).ne = ne := by
      injection hne
    constructor
    · rw [← hne']
      exact normalizeEventLines_seq_mem ctx.tzmap ctx.propertyOrder _ _ _ ctx.defaultTz
    · rw [h2, ← hne']
      exact processEvent_state_self ctx _ _

/-- C1 witness: a single-event calendar with empty prior state derives
sequence 0. -/
theorem c1_witness :
    (0 : Nat) < calWitness.events.length ∧
    ((normalizeCalendar ctxStub (fun _ => none) none calWitness).normalizedEvents[0]?).map
      NormalizedEvent.sequence = some 0 := by
  refine ⟨by decide, ?_⟩
  exact (c1_sequence_derivation ctxStub (fun _ => none) none calWitness 0 (by decide)).1 rfl

theorem createCancelled_of_some (ctx : RunCtx) (st : KvMap) (k : String) (ps : EventState)
    (h : st k = some ps) :
    createCancelledEventFromState ctx st k =
      (some (cancelledEventFor ctx k ps),
       fun x => if x = k then some ⟨ps.sequence + 1, "CANCELLED", ctx.now⟩ else st x) := by
  unfold createCancelledEventFromState cancelledEventFor
  rw [h]

theorem createCancelled_state_ne (ctx : RunCtx) (st : KvMap) (k k' : String) (h : k' ≠ k) :
    (createCancelledEventFromState ctx st k).2 k' = st k' := by
  unfold createCancelledEventFromState
  cases hst : st k with
  | none => rfl
  | some ps => simp [h]

theorem cancelPhase_cons (ctx : RunCtx) (st : KvMap) (k0 : String) (ks : List String) :
    cancelPhase ctx st (k0 :: ks) =
      match createCancelledEventFromState ctx st k0 with
      | (some ne, st1) => ((k0, ne) :: (cancelPhase ctx st1 ks).1, (cancelPhase ctx st1 ks).2)
      | (none, st1) => cancelPhase ctx st1 ks := rfl

theorem cancelPhase_not_mem (ctx : RunCtx) (ks : List String) :
    ∀ (st : KvMap) (k : String), k ∉ ks →
      (cancelPhase ctx st ks).2 k = st k ∧
      ((cancelPhase ctx st ks).1.countP (fun pr => pr.1 == k)) = 0 ∧
      (∀ ne, (k, ne) ∉ (cancelPhase ctx st ks).1) := by
  induction ks with
  | nil =>
    intro st k _
    exact ⟨rfl, rfl, fun ne h => (List.not_mem_nil (k, ne)) h⟩
  | cons k0 ks ih =>
    intro st k hk
    have hne : k ≠ k0 := fun e => hk (e ▸ List.mem_cons_self k0 ks)
    have hk' : k ∉ ks := fun hm => hk (List.mem_cons_of_mem k0 hm)
    rw [cancelPhase_cons]
    rcases hcc : createCancelledEventFromState ctx st k0 with ⟨o, st1⟩
    have hst1 : st1 k = st k := by
      have hcs := createCancelled_state_ne ctx st k0 k hne
      rw [hcc] at hcs
      exact hcs
    rcases ih st1 k hk' with ⟨h1, h2, h3⟩
    cases o with
    | none => exact ⟨h1.trans hst1, h2, h3⟩
    | some ne0 =>
      refine ⟨h1.trans hst1, ?_, ?_⟩
      · rw [List.countP_cons]
        have hb : ((k0, ne0).1 == k) = false := by
          simp
          exact fun e => hne e.symm
        simp [h2, hb]
      · intro ne hm
        rcases List.mem_cons.mp hm with he | he
        · cases he
          exact hne rfl
        · exact h3 ne he

theorem cancelPhase_mem (ctx : RunCtx) (ks : List String) :
    ∀ (st : KvMap) (k : String) (ps : EventState), ks.Nodup → k ∈ ks → st k = some ps →
      (cancelPhase ctx st ks).2 k = some ⟨ps.sequence + 1, "CANCELLED", ctx.now⟩ ∧
      ((cancelPhase ctx st ks).1.countP (fun pr => pr.1 == k)) = 1 ∧
      (∀ ne, (k, ne) ∈ (cancelPhase ctx st ks).1 → ne = cancelledEventFor ctx k ps) := by
  induction ks with
  | nil =>
    intro st k ps _ hmem _
    exact absurd hmem (List.not_mem_nil k)
  | cons k0 ks ih =>
    intro st k ps hnd hmem hst
    rw [cancelPhase_cons]
    by_cases hk : k = k0
    · subst hk
      rw [createCancelled_of_some ctx st k ps hst]
      have hknot : k ∉ ks := (List.nodup_cons.mp hnd).1
      rcases cancelPhase_not_mem ctx ks
          (fun x => if x = k then some ⟨ps.sequence + 1, "CANCELLED", ctx.now⟩ else st x) k hknot
        with ⟨hs, hc, hm⟩
      refine ⟨?_, ?_, ?_⟩
      · rw [hs]
        simp
      · rw [List.countP_cons]
        simp [hc]
      · intro ne hne
        rcases List.mem_cons.mp hne with he | he
        · exact ((Prod.mk.injEq _ _ _ _).mp he.symm).2.symm
        · exact absurd he (hm ne)
    · have hmem' : k ∈ ks := by
        rcases List.mem_cons.mp hmem with e | e
        · exact absurd e hk
        · exact e
      have hnd' := (List.nodup_cons.mp hnd).2
      rcases hcc : createCancelledEventFromState ctx st k0 with ⟨o, st1⟩
      have hst1 : st1 k = st k := by
        have hcs := createCancelled_state_ne ctx st k0 k hk
        rw [hcc] at hcs
        exact hcs
      rcases ih st1 k ps hnd' hmem' (hst1.trans hst) with ⟨hs, hc, hm⟩
      cases o with
      | none => exact ⟨hs, hc, hm⟩
      | some ne0 =>
        refine ⟨hs, ?_, ?_⟩
        · rw [List.countP_cons]
          have hb : ((k0, ne0).1 == k) = false := by
            simp
            exact fun e => hk e.symm
          simp [hc, hb]
        · intro ne hne
          rcases List.mem_cons.mp hne with he | he
          · cases he
            exact absurd rfl hk
          · exact hm ne he

theorem splitChar_not_mem (c : Char) (l : List Char) (h : c ∉ l) : splitChar c l = [l] := by
  induction l with
  | nil => rfl
  | cons d ds ih =>
    have h1 : d ≠ c := fun e => h (e ▸ List.mem_cons_self d ds)
    have h2 : c ∉ ds := fun hm => h (List.mem_cons_of_mem d hm)
    show (if d = c then _ else consHead d (splitChar c ds)) = [d :: ds]
    rw [if_neg h1, ih h2]
    rfl

theorem cancelledEventFor_stableUid (ctx : RunCtx) (k : String) (ps : EventState) :
    (cancelledEventFor ctx k ps).stableUid = keyUidPart k := by
  show (if k.data.contains '#' then ofChars ((splitChar '#' k.data).headD []) else k) =
    ofChars ((splitChar '#' k.data).headD [])
  by_cases h : k.data.contains '#' = true
  · rw [if_pos h]
  · rw [if_neg (by simpa using h)]
    have h2 : '#' ∉ k.data := by simpa using h
    rw [splitChar_not_mem '#' k.data h2]
    rfl

theorem cancelledEventFor_lines (ctx : RunCtx) (k : String) (ps : EventState) :
    "STATUS:CANCELLED" ∈ (cancelledEventFor ctx k ps).lines ∧
    ("UID:" ++ keyUidPart k ++ "@calproxy") ∈ (cancelledEventFor ctx k ps).lines ∧
    ("SEQUENCE:" ++ toString (ps.sequence + 1)) ∈ (cancelledEventFor ctx k ps).lines ∧
    (cancelledEventFor ctx k ps).sequence = ps.sequence + 1 := by
  have huid := cancelledEventFor_stableUid ctx k ps
  refine ⟨?_, ?_, ?_, rfl⟩
  · show "STATUS:CANCELLED" ∈ createCancelledEventLines ctx.nowStamp _ (ps.sequence + 1) _
    unfold createCancelledEventLines
    simp
  · rw [← huid]
    show _ ∈ createCancelledEventLines ctx.nowStamp (cancelledEventFor ctx k ps).stableUid
      (ps.sequence + 1) _
    unfold createCancelledEventLines
    simp
  · show _ ∈ createCancelledEventLines ctx.nowStamp _ (ps.sequence + 1) _
    unfold createCancelledEventLines
    simp

/-- C2: for an event-key in the previous snapshot, absent from the current
parse, whose state record still exists: exactly one cancellation is
synthesized for it, that VEVENT appears in the output with
`STATUS:CANCELLED`, `UID:<stable-uid>@calproxy` and `SEQUENCE` equal to
the stored sequence plus one, and the state record is rewritten with the
sentinel hash `CANCELLED` and the advanced sequence. -/
theorem c2_cancellation (ctx : RunCtx) (st0 : KvMap) (snapKeys : List String) (genAt : Nat)
    (parsed : ParsedCalendar) (k : String) (ps : EventState)
    (hnd : snapKeys.Nodup) (hmem : k ∈ snapKeys) (hst : st0 k = some ps)
    (habsent : k ∉ (normalizeCalendar ctx st0 (some ⟨snapKeys, genAt⟩) parsed).snapshotKeys) :
    ((normalizeCalendar ctx st0 (some ⟨snapKeys, genAt⟩) parsed).cancellations.countP
      (fun pr => pr.1 == k)) = 1 ∧
    (∀ ne, (k, ne) ∈ (normalizeCalendar ctx st0 (some ⟨snapKeys, genAt⟩) parsed).cancellations →
      ne ∈ (normalizeCalendar ctx st0 (some ⟨snapKeys, genAt⟩) parsed).normalizedEvents ∧
      "STATUS:CANCELLED" ∈ ne.lines ∧
      ("UID:" ++ keyUidPart k ++ "@calproxy") ∈ ne.lines ∧
      ("SEQUENCE:" ++ toString (ps.sequence + 1)) ∈ ne.lines ∧
      ne.sequence = ps.sequence + 1) ∧
    (normalizeCalendar ctx st0 (some ⟨snapKeys, genAt⟩) parsed).finalState k =
      some ⟨ps.sequence + 1, "CANCELLED", ctx.now⟩ := by
  have hcur : (normalizeCalendar ctx st0 (some ⟨snapKeys, genAt⟩) parsed).snapshotKeys =
      (phase1 ctx st0 parsed.events).currentKeys := rfl
  have hnotin : k ∉ (phase1 ctx st0 parsed.events).currentKeys := by
    rw [hcur] at habsent
    exact habsent
  have hknotkey : ∀ e ∈ parsed.events, k ≠ eventKeyOf ctx.sha256 e := by
    intro e he heq
    apply hnotin
    rw [phase1_currentKeys]
    exact heq ▸ List.mem_map_of_mem _ he
  have hstate1 : (phase1 ctx st0 parsed.events).state k = some ps :=
    (phase1_state_not_mem ctx parsed.events st0 k hknotkey).trans hst
  have hmem' : k ∈ snapKeys.filter
      (fun x => ! (phase1 ctx st0 parsed.events).currentKeys.contains x) := by
    apply List.mem_filter.mpr
    refine ⟨hmem, ?_⟩
    simpa using hnotin
  have hnd' : (snapKeys.filter
      (fun x => ! (phase1 ctx st0 parsed.events).currentKeys.contains x)).Nodup :=
    hnd.filter _
  rcases cancelPhase_mem ctx _ (phase1 ctx st0 parsed.events).state k ps hnd' hmem' hstate1
    with ⟨hs, hc, hm⟩
  refine ⟨hc, ?_, hs⟩
  intro ne hne
  have hne' := hm ne hne
  subst hne'
  rcases cancelledEventFor_lines ctx k ps with ⟨l1, l2, l3, l4⟩
  refine ⟨?_, l1, l2, l3, l4⟩
  apply List.mem_append_right
  exact List.mem_map_of_mem Prod.snd hne

/-- C2 witness: one snapshot key, empty parse, populated state. -/
theorem c2_witness :
    ((normalizeCalendar ctxStub stOneKey (some ⟨["K"], 0⟩) calEmpty).cancellations.countP
      (fun pr => pr.1 == "K")) = 1 ∧
    (normalizeCalendar ctxStub stOneKey (some ⟨["K"], 0⟩) calEmpty).finalState "K" =
      some ⟨3, "CANCELLED", ctxStub.now⟩ := by
  have h := c2_cancellation ctxStub stOneKey ["K"] 0 calEmpty "K" ⟨2, "h0", 5⟩
    (by decide) (by decide) rfl (by decide)
  exact ⟨h.1, h.2.2⟩

end CalProxy
